import Mathlib

/-!
Verification of the text-to-SQL agent backend.

We shallowly embed the pure cores of the repository in Lean:
strings are modelled as lists of characters and the Python string
operations (strip, upper, split, substring membership) are defined
to match the CPython semantics on ASCII input.  External effects
(the language-model provider, the database driver, the JSON parser)
are parameters of the embedded functions.
-/

/-- The ASCII whitespace characters recognised by Python str.strip,
str.split and the regex class backslash-s. -/
def pyWS (c : Char) : Bool :=
  c = ' ' || c = '\t' || c = '\n' || c = '\x0d' || c = '\x0b' || c = '\x0c'

/-- Python str.lstrip on ASCII input. -/
def pyLStrip (s : List Char) : List Char := s.dropWhile pyWS

/-- Python str.rstrip on ASCII input. -/
def pyRStrip (s : List Char) : List Char := (s.reverse.dropWhile pyWS).reverse

/-- Python str.strip on ASCII input. -/
def pyStrip (s : List Char) : List Char := pyRStrip (pyLStrip s)

/-- Python str.upper on ASCII input. -/
def upperL (s : List Char) : List Char := s.map Char.toUpper

/-- Coercion from a Lean string literal to the character-list model. -/
def str (s : String) : List Char := s.data

/-- Fuel-indexed worker for pySplitWS; the fuel only forces structural
recursion and any fuel at least the length of the input is enough. -/
def pySplitWSF : Nat → List Char → List (List Char)
  | 0, _ => []
  | _, [] => []
  | fuel + 1, c :: cs =>
    if pyWS c then pySplitWSF fuel cs
    else
      (c :: cs).takeWhile (fun d => !pyWS d) ::
        pySplitWSF fuel ((c :: cs).dropWhile (fun d => !pyWS d))

/-- Python str.split with no separator: split on whitespace runs,
discarding empty pieces. -/
def pySplitWS (s : List Char) : List (List Char) := pySplitWSF s.length s

/-- Python " ".join applied to a list of pieces. -/
def joinSpace (ps : List (List Char)) : List Char :=
  match ps with
  | [] => []
  | [p] => p
  | p :: q :: rest => p ++ ' ' :: joinSpace (q :: rest)

/-! ## tools.py: the query-execution row-limit guard -/

/-- The test re.match("^\\s*SELECT\\s+", s, IGNORECASE): optional leading
whitespace, the word SELECT case-insensitively, then at least one
whitespace character. -/
def startsSelect (s : List Char) : Bool :=
  let t := s.dropWhile pyWS
  decide (str "SELECT" <+: upperL t) &&
    (match t.drop 6 with
     | c :: _ => pyWS c
     | [] => false)

/-- The Python test "LIMIT" in s.upper(). -/
def hasLimitSub (s : List Char) : Bool :=
  decide (str "LIMIT" <:+: upperL s)

/-- tools.py _ensure_select_limit with default_limit = 50: strip the
statement; if it is a SELECT whose uppercase text does not contain the
substring LIMIT, append " LIMIT 50" (before the trailing semicolon when
one is present); otherwise return the stripped statement. -/
def ensure_select_limit (sql : List Char) : List Char :=
  let s := pyStrip sql
  if startsSelect s then
    if !hasLimitSub s then
      if (pyRStrip s).getLast? = some ';' then
        (pyRStrip s).dropLast ++ str " LIMIT 50;"
      else s ++ str " LIMIT 50"
    else s
  else s

example : ensure_select_limit (str "SELECT a FROM t") = str "SELECT a FROM t LIMIT 50" := by decide
example : ensure_select_limit (str "SELECT a FROM t;") = str "SELECT a FROM t LIMIT 50;" := by decide
example : ensure_select_limit (str " DROP TABLE t ") = str "DROP TABLE t" := by decide
example : ensure_select_limit (str "SELECT delimiter FROM t") = str "SELECT delimiter FROM t" := by decide

/-! ## enhanced2.py / enhanced_sql.py: candidate normalization -/

lemma pyStrip_length_le (s : List Char) : (pyStrip s).length ≤ s.length := by
  have h1 : (pyLStrip s).length ≤ s.length := (List.dropWhile_sublist pyWS).length_le
  have h2 : (pyRStrip (pyLStrip s)).length ≤ (pyLStrip s).length := by
    unfold pyRStrip
    simpa using (List.dropWhile_sublist (l := (pyLStrip s).reverse) pyWS).length_le
  exact le_trans h2 h1

/-- Fuel-indexed worker for the clean_sql while loop; any fuel at least
the length of the input is enough, because each iteration shortens the
statement by at least seven characters. -/
def dropDupSelectF : Nat → List Char → List Char
  | 0, s => s
  | fuel + 1, s =>
    if str "SELECT SELECT" <+: upperL s then dropDupSelectF fuel (pyStrip (s.drop 7)) else s

/-- The while loop of clean_sql: while the uppercased statement starts
with "SELECT SELECT", drop the first 7 characters and strip again. -/
def dropDupSelect (s : List Char) : List Char := dropDupSelectF s.length s

/-- clean_sql from enhanced2.py (identical to _clean_sql in
enhanced_sql.py): empty input becomes "SELECT 1;"; otherwise strip,
remove a duplicated leading SELECT, truncate at the first semicolon
(appending one if absent), and collapse whitespace runs via
" ".join(s.split()). -/
def clean_sql (sql : List Char) : List Char :=
  if sql = [] then str "SELECT 1;"
  else
    let s0 := dropDupSelect (pyStrip sql)
    let s1 := if ';' ∈ s0 then s0.takeWhile (· != ';') ++ [';'] else s0 ++ [';']
    joinSpace (pySplitWS s1)

example : clean_sql (str "  SELECT a,  b FROM t ;  junk") = str "SELECT a, b FROM t ;" := by decide
example : clean_sql (str "SELECT 1") = str "SELECT 1;" := by decide
example : clean_sql (str "SELECT 1;") = str "SELECT 1;" := by decide
example : clean_sql (str "SELECT 1 ;") = str "SELECT 1 ;" := by decide
example : clean_sql (str "SELECT SELECT x FROM t") = str "SELECT x FROM t;" := by decide
example : clean_sql [] = str "SELECT 1;" := by decide
example : clean_sql (str "  ") = str ";" := by decide

lemma pySplitWSF_stable : ∀ (f1 : Nat) (f2 : Nat) (s : List Char), s.length ≤ f1 → s.length ≤ f2 →
    pySplitWSF f1 s = pySplitWSF f2 s := by
  intro f1
  induction f1 with
  | zero =>
    intro f2 s h1 _
    have : s = [] := List.length_eq_zero.mp (Nat.le_zero.mp h1)
    subst this
    cases f2 <;> rfl
  | succ f ih =>
    intro f2 s h1 h2
    cases s with
    | nil => cases f2 <;> rfl
    | cons c cs =>
      cases f2 with
      | zero => simp at h2
      | succ g =>
        simp only [List.length_cons] at h1 h2
        simp only [pySplitWSF]
        by_cases hc : pyWS c
        · rw [if_pos hc, if_pos hc]
          exact ih g cs (by omega) (by omega)
        · rw [if_neg hc, if_neg hc]
          have hrest : ((c :: cs).dropWhile (fun d => !pyWS d)).length ≤ cs.length := by
            simp only [List.dropWhile_cons]
            rw [if_pos (by simp [hc])]
            exact (List.dropWhile_sublist (l := cs) (fun d => !pyWS d)).length_le
          rw [ih g _ (by omega) (by omega)]

lemma pySplitWS_cons (c : Char) (cs : List Char) :
    pySplitWS (c :: cs) =
      if pyWS c then pySplitWS cs
      else (c :: cs).takeWhile (fun d => !pyWS d) ::
        pySplitWS ((c :: cs).dropWhile (fun d => !pyWS d)) := by
  unfold pySplitWS
  simp only [List.length_cons, pySplitWSF]
  by_cases hc : pyWS c
  · rw [if_pos hc, if_pos hc]
  · have hrest : ((c :: cs).dropWhile (fun d => !pyWS d)).length ≤ cs.length := by
      simp only [List.dropWhile_cons]
      rw [if_pos (by simp [hc])]
      exact (List.dropWhile_sublist (l := cs) (fun d => !pyWS d)).length_le
    rw [if_neg hc, if_neg hc]
    rw [pySplitWSF_stable cs.length _ _ (by omega) (le_refl _)]

/-- Bounded-length induction principle used to reason about pySplitWS. -/
lemma pySplitWS_join_aux : ∀ (n : Nat) (l : List Char), l.length ≤ n →
    (pySplitWS l).flatten = l.filter (fun c => !pyWS c) := by
  intro n
  induction n with
  | zero =>
    intro l h
    have : l = [] := List.length_eq_zero.mp (Nat.le_zero.mp h)
    subst this; rfl
  | succ n ih =>
    intro l h
    cases l with
    | nil => rfl
    | cons c cs =>
      simp only [List.length_cons] at h
      rw [pySplitWS_cons]
      by_cases hc : pyWS c
      · rw [if_pos hc, List.filter_cons]
        rw [if_neg (by simp [hc])]
        exact ih cs (by omega)
      · rw [if_neg hc, List.flatten_cons]
        have hrest : ((c :: cs).dropWhile (fun d => !pyWS d)).length ≤ cs.length := by
          simp only [List.dropWhile_cons]
          rw [if_pos (by simp [hc])]
          exact (List.dropWhile_sublist (l := cs) (fun d => !pyWS d)).length_le
        rw [ih _ (by omega)]
        conv_rhs => rw [← List.takeWhile_append_dropWhile (fun d => !pyWS d) (c :: cs)]
        rw [List.filter_append]
        congr 1
        have hall : ∀ a ∈ (c :: cs).takeWhile (fun d => !pyWS d), (!pyWS a) = true := by
          intro a ha
          exact List.mem_takeWhile_imp (p := fun d => !pyWS d) ha
        exact (List.filter_eq_self.mpr hall).symm

/-- Joining the whitespace split recovers exactly the non-whitespace
characters. -/
lemma pySplitWS_join (l : List Char) :
    (pySplitWS l).flatten = l.filter (fun c => !pyWS c) :=
  pySplitWS_join_aux l.length l (le_refl _)

/-- Every piece produced by pySplitWS is nonempty. -/
lemma pySplitWS_piece_ne_nil_aux : ∀ (n : Nat) (l : List Char), l.length ≤ n →
    ∀ p ∈ pySplitWS l, p ≠ [] := by
  intro n
  induction n with
  | zero =>
    intro l h
    have : l = [] := List.length_eq_zero.mp (Nat.le_zero.mp h)
    subst this
    intro p hp
    simp [pySplitWS, pySplitWSF] at hp
  | succ n ih =>
    intro l h
    cases l with
    | nil => intro p hp; simp [pySplitWS, pySplitWSF] at hp
    | cons c cs =>
      simp only [List.length_cons] at h
      rw [pySplitWS_cons]
      by_cases hc : pyWS c
      · rw [if_pos hc]
        exact ih cs (by omega)
      · rw [if_neg hc]
        intro p hp
        rcases List.mem_cons.mp hp with hp | hp
        · subst hp
          simp [List.takeWhile_cons, hc]
        · have hrest : ((c :: cs).dropWhile (fun d => !pyWS d)).length ≤ cs.length := by
            simp only [List.dropWhile_cons]
            rw [if_pos (by simp [hc])]
            exact (List.dropWhile_sublist (l := cs) (fun d => !pyWS d)).length_le
          exact ih _ (by omega) p hp

lemma pySplitWS_piece_ne_nil (l : List Char) : ∀ p ∈ pySplitWS l, p ≠ [] :=
  pySplitWS_piece_ne_nil_aux l.length l (le_refl _)

/-- A list containing a non-whitespace character splits into at least
one piece. -/
lemma pySplitWS_ne_nil_aux : ∀ (n : Nat) (l : List Char), l.length ≤ n →
    (∃ c ∈ l, ¬ pyWS c) → pySplitWS l ≠ [] := by
  intro n
  induction n with
  | zero =>
    intro l h hex
    have : l = [] := List.length_eq_zero.mp (Nat.le_zero.mp h)
    subst this
    rcases hex with ⟨c, hc, _⟩
    simp at hc
  | succ n ih =>
    intro l h hex
    cases l with
    | nil => rcases hex with ⟨c, hc, _⟩; simp at hc
    | cons c cs =>
      simp only [List.length_cons] at h
      rw [pySplitWS_cons]
      by_cases hc : pyWS c
      · rw [if_pos hc]
        rcases hex with ⟨d, hd, hdw⟩
        rcases List.mem_cons.mp hd with hd | hd
        · subst hd; exact absurd hc hdw
        · exact ih cs (by omega) ⟨d, hd, hdw⟩
      · rw [if_neg hc]
        simp

lemma pySplitWS_ne_nil (l : List Char) (hex : ∃ c ∈ l, ¬ pyWS c) : pySplitWS l ≠ [] :=
  pySplitWS_ne_nil_aux l.length l (le_refl _) hex

/-- Normalizing a semicolon-free statement followed by a single
semicolon produces a string ending in that semicolon and containing no
other semicolon. -/
lemma splitJoin_semi_aux : ∀ (n : Nat) (w : List Char), w.length ≤ n → ';' ∉ w →
    ∃ u, joinSpace (pySplitWS (w ++ [';'])) = u ++ [';'] ∧ ';' ∉ u := by
  intro n
  induction n with
  | zero =>
    intro w h _
    have : w = [] := List.length_eq_zero.mp (Nat.le_zero.mp h)
    subst this
    exact ⟨[], by decide, by simp⟩
  | succ n ih =>
    intro w h hsemi
    cases w with
    | nil => exact ⟨[], by decide, by simp⟩
    | cons c cs =>
      simp only [List.length_cons] at h
      have hcne : c ≠ ';' := fun hc => hsemi (hc ▸ List.mem_cons_self c cs)
      have hcsne : ';' ∉ cs := fun hmem => hsemi (List.mem_cons_of_mem c hmem)
      rw [List.cons_append, pySplitWS_cons]
      by_cases hc : pyWS c
      · rw [if_pos hc]
        exact ih cs (by omega) hcsne
      · rw [if_neg hc]
        rw [show c :: (cs ++ [';']) = (c :: cs) ++ [';'] from rfl]
        by_cases hws : ∃ d ∈ c :: cs, pyWS d
        · -- a whitespace character occurs before the semicolon
          have htakelen : ((c :: cs).takeWhile (fun d => !pyWS d)).length ≠ (c :: cs).length := by
            intro hlen
            have heq : (c :: cs).takeWhile (fun d => !pyWS d) = c :: cs :=
              (List.takeWhile_prefix (fun d => !pyWS d)).eq_of_length hlen
            rcases hws with ⟨d, hd, hdw⟩
            have : (!pyWS d) = true := List.mem_takeWhile_imp (p := fun d => !pyWS d) (heq ▸ hd)
            simp [hdw] at this
          have hdropne : (c :: cs).dropWhile (fun d => !pyWS d) ≠ [] := by
            intro hnil
            have := List.takeWhile_append_dropWhile (fun d => !pyWS d) (c :: cs)
            rw [hnil, List.append_nil] at this
            exact htakelen (by rw [this])
          rw [List.takeWhile_append, if_neg htakelen]
          rw [List.dropWhile_append, if_neg (by simpa using hdropne)]
          set w2 := (c :: cs).dropWhile (fun d => !pyWS d) with hw2
          have hw2len : w2.length ≤ cs.length := by
            rw [hw2]
            simp only [List.dropWhile_cons]
            rw [if_pos (by simp [hc])]
            exact (List.dropWhile_sublist (l := cs) (fun d => !pyWS d)).length_le
          have hw2semi : ';' ∉ w2 := by
            intro hmem
            exact hsemi ((List.dropWhile_sublist (fun d => !pyWS d)).subset hmem)
          rcases ih w2 (by omega) hw2semi with ⟨u, hu, hnu⟩
          have hS : pySplitWS (w2 ++ [';']) ≠ [] := by
            apply pySplitWS_ne_nil
            exact ⟨';', by simp, by decide⟩
          cases hSplit : pySplitWS (w2 ++ [';']) with
          | nil => exact absurd hSplit hS
          | cons q r =>
            rw [hSplit] at hu
            refine ⟨(c :: cs).takeWhile (fun d => !pyWS d) ++ ' ' :: u, ?_, ?_⟩
            · show joinSpace (_ :: q :: r) = _
              rw [joinSpace, hu]
              simp
            · intro hmem
              rcases List.mem_append.mp hmem with hmem | hmem
              · exact hsemi ((List.takeWhile_sublist (fun d => !pyWS d)).subset hmem)
              · rcases List.mem_cons.mp hmem with hmem | hmem
                · exact absurd hmem.symm (by decide)
                · exact hnu hmem
        · -- no whitespace before the semicolon: one single piece
          push_neg at hws
          have hall : ∀ a ∈ c :: cs, (!pyWS a) = true := by
            intro a ha
            simpa using hws a ha
          rw [List.takeWhile_append_of_pos hall, List.dropWhile_append_of_pos hall]
          refine ⟨c :: cs, ?_, hsemi⟩
          have h1 : List.takeWhile (fun d => !pyWS d) [';'] = [';'] := by decide
          have h2 : List.dropWhile (fun d => !pyWS d) [';'] = [] := by decide
          rw [h1, h2]
          rfl

lemma splitJoin_semi (w : List Char) (hsemi : ';' ∉ w) :
    ∃ u, joinSpace (pySplitWS (w ++ [';'])) = u ++ [';'] ∧ ';' ∉ u :=
  splitJoin_semi_aux w.length w (le_refl _) hsemi

/-- Every clean_sql output is some semicolon-free string followed by a
single terminating semicolon. -/
lemma clean_sql_shape (sql : List Char) :
    ∃ u, clean_sql sql = u ++ [';'] ∧ ';' ∉ u := by
  by_cases hnil : sql = []
  · subst hnil
    exact ⟨str "SELECT 1", by decide, by decide⟩
  · have hred : clean_sql sql =
        joinSpace (pySplitWS (if ';' ∈ dropDupSelect (pyStrip sql) then
          (dropDupSelect (pyStrip sql)).takeWhile (· != ';') ++ [';']
          else dropDupSelect (pyStrip sql) ++ [';'])) := by
      unfold clean_sql
      rw [if_neg hnil]
    rw [hred]
    by_cases hmem : ';' ∈ dropDupSelect (pyStrip sql)
    · rw [if_pos hmem]
      apply splitJoin_semi
      intro hmem2
      have := List.mem_takeWhile_imp (p := (· != ';')) hmem2
      simp at this
    · rw [if_neg hmem]
      exact splitJoin_semi _ hmem

lemma clean_sql_ne_nil (sql : List Char) : clean_sql sql ≠ [] := by
  rcases clean_sql_shape sql with ⟨u, hu, _⟩
  rw [hu]
  simp

lemma clean_sql_count_semi (sql : List Char) : (clean_sql sql).count ';' = 1 := by
  rcases clean_sql_shape sql with ⟨u, hu, hnu⟩
  rw [hu, List.count_append]
  rw [List.count_eq_zero_of_not_mem hnu]
  rfl

lemma clean_sql_getLast (sql : List Char) : (clean_sql sql).getLast? = some ';' := by
  rcases clean_sql_shape sql with ⟨u, hu, _⟩
  rw [hu, List.getLast?_append]
  rfl

/-! ### Python strip: idempotence and interaction with appended text -/

lemma pyLStrip_cons_nonws {c : Char} (hc : ¬ pyWS c) (cs : List Char) :
    pyLStrip (c :: cs) = c :: cs := by
  unfold pyLStrip
  rw [List.dropWhile_cons, if_neg (by simpa using hc)]

lemma pyRStrip_append_nonws {c : Char} (hc : ¬ pyWS c) (y : List Char) :
    pyRStrip (y ++ [c]) = y ++ [c] := by
  unfold pyRStrip
  rw [List.reverse_append]
  simp only [List.reverse_cons, List.reverse_nil, List.nil_append, List.singleton_append]
  rw [List.dropWhile_cons, if_neg (by simpa using hc)]
  simp

lemma pyRStrip_pref (y : List Char) : pyRStrip y <+: y := by
  unfold pyRStrip
  have h : y.reverse.dropWhile pyWS <:+ y.reverse := List.dropWhile_suffix pyWS
  have h2 := List.reverse_prefix.mpr h
  simpa using h2

lemma pyLStrip_length_le (s : List Char) : (pyLStrip s).length ≤ s.length :=
  (List.dropWhile_sublist pyWS).length_le

lemma pyRStrip_length_le (s : List Char) : (pyRStrip s).length ≤ s.length :=
  (pyRStrip_pref s).length_le

lemma pyLStrip_eq_self_of_strip {s : List Char} (h : pyStrip s = s) : pyLStrip s = s := by
  have h1 : (pyLStrip s).length ≤ s.length := pyLStrip_length_le s
  have h2 : (pyRStrip (pyLStrip s)).length ≤ (pyLStrip s).length :=
    pyRStrip_length_le (pyLStrip s)
  have h3 : (pyLStrip s).length = s.length := by
    have h4 := congrArg List.length h
    unfold pyStrip at h4
    omega
  exact (List.dropWhile_suffix pyWS).eq_of_length h3

lemma pyRStrip_eq_self_of_strip {s : List Char} (h : pyStrip s = s) : pyRStrip s = s := by
  have hL := pyLStrip_eq_self_of_strip h
  unfold pyStrip at h
  rwa [hL] at h

lemma pyLStrip_idem (s : List Char) : pyLStrip (pyLStrip s) = pyLStrip s := by
  cases hd : pyLStrip s with
  | nil => rfl
  | cons c cs =>
    have hhead := List.head?_dropWhile_not pyWS s
    unfold pyLStrip at hd
    rw [hd] at hhead
    simp only [List.head?_cons] at hhead
    exact pyLStrip_cons_nonws (by simp [hhead]) cs

lemma pyRStrip_idem (s : List Char) : pyRStrip (pyRStrip s) = pyRStrip s := by
  unfold pyRStrip
  rw [List.reverse_reverse]
  have := pyLStrip_idem s.reverse
  unfold pyLStrip at this
  rw [this]

lemma pyLStrip_pyRStrip (s : List Char) (h : pyLStrip s = s) :
    pyLStrip (pyRStrip s) = pyRStrip s := by
  cases hr : pyRStrip s with
  | nil => rfl
  | cons c cs =>
    rcases pyRStrip_pref s with ⟨t, ht⟩
    rw [hr] at ht
    have hhead : ¬ pyWS c := by
      rw [← ht] at h
      by_contra hws
      have : pyLStrip (c :: (cs ++ t)) = pyLStrip (cs ++ t) := by
        unfold pyLStrip
        rw [List.dropWhile_cons, if_pos (by simpa using hws)]
      rw [List.cons_append] at h
      rw [this] at h
      have hlen := congrArg List.length h
      rw [List.length_cons] at hlen
      have hle := pyLStrip_length_le (cs ++ t)
      omega
    exact pyLStrip_cons_nonws hhead cs

lemma pyStrip_idem (s : List Char) : pyStrip (pyStrip s) = pyStrip s := by
  unfold pyStrip
  rw [pyLStrip_pyRStrip (pyLStrip s) (pyLStrip_idem s), pyRStrip_idem]

lemma pyStrip_pyStrip_eq (s : List Char) : pyStrip (pyStrip s) = pyStrip s := pyStrip_idem s

lemma pyLStrip_ws_append {w : List Char} (hw : ∀ c ∈ w, pyWS c) (s : List Char) :
    pyLStrip (w ++ s) = pyLStrip s := by
  unfold pyLStrip
  exact List.dropWhile_append_of_pos hw

lemma pyRStrip_append_ws {w : List Char} (hw : ∀ c ∈ w, pyWS c) (y : List Char) :
    pyRStrip (y ++ w) = pyRStrip y := by
  unfold pyRStrip
  rw [List.reverse_append]
  rw [List.dropWhile_append_of_pos (by intro a ha; exact hw a (by simpa using ha))]

/-- Stripping ignores any all-whitespace padding around the statement. -/
lemma pyStrip_ws_wrap {w1 w2 : List Char} (hw1 : ∀ c ∈ w1, pyWS c)
    (hw2 : ∀ c ∈ w2, pyWS c) (s : List Char) :
    pyStrip (w1 ++ s ++ w2) = pyStrip s := by
  unfold pyStrip
  rw [List.append_assoc, pyLStrip_ws_append hw1]
  by_cases hnil : pyLStrip s = []
  · have hws : ∀ c ∈ s, pyWS c := List.dropWhile_eq_nil_iff.mp hnil
    have h2 : pyLStrip (s ++ w2) = [] := by
      unfold pyLStrip
      rw [List.dropWhile_eq_nil_iff]
      intro x hx
      rcases List.mem_append.mp hx with hx | hx
      · exact hws x hx
      · exact hw2 x hx
    rw [h2, hnil]
  · have h2 : pyLStrip (s ++ w2) = pyLStrip s ++ w2 := by
      have hne : ¬ ((s.dropWhile pyWS).isEmpty = true) := by
        intro hh
        exact hnil (by simpa [pyLStrip] using List.isEmpty_iff.mp hh)
      unfold pyLStrip
      rw [List.dropWhile_append, if_neg hne]
    rw [h2, pyRStrip_append_ws hw2]

lemma dropDupSelectF_stable : ∀ (f1 : Nat) (f2 : Nat) (s : List Char),
    s.length ≤ f1 → s.length ≤ f2 → dropDupSelectF f1 s = dropDupSelectF f2 s := by
  have hnil : ∀ (g : Nat), dropDupSelectF g ([] : List Char) = [] := by
    intro g
    cases g with
    | zero => rfl
    | succ g =>
      simp only [dropDupSelectF]
      rw [if_neg]
      intro h
      have := h.length_le
      simp [str, upperL] at this
  intro f1
  induction f1 with
  | zero =>
    intro f2 s h1 _
    have : s = [] := List.length_eq_zero.mp (Nat.le_zero.mp h1)
    subst this
    rw [hnil, hnil]
  | succ f ih =>
    intro f2 s h1 h2
    cases f2 with
    | zero =>
      have : s = [] := List.length_eq_zero.mp (Nat.le_zero.mp h2)
      subst this
      rw [hnil, hnil]
    | succ g =>
      simp only [dropDupSelectF]
      by_cases hsel : str "SELECT SELECT" <+: upperL s
      · rw [if_pos hsel, if_pos hsel]
        have hlen : 13 ≤ s.length := by
          have := hsel.length_le
          simp [str, upperL] at this
          omega
        have hnext : (pyStrip (s.drop 7)).length ≤ s.length - 7 := by
          have := pyStrip_length_le (s.drop 7)
          simp at this
          omega
        exact ih g _ (by omega) (by omega)
      · rw [if_neg hsel, if_neg hsel]

lemma dropDupSelect_eq (s : List Char) :
    dropDupSelect s =
      if str "SELECT SELECT" <+: upperL s then dropDupSelect (pyStrip (s.drop 7)) else s := by
  unfold dropDupSelect
  by_cases hsel : str "SELECT SELECT" <+: upperL s
  · have hlen : 13 ≤ s.length := by
      have := hsel.length_le
      simp [str, upperL] at this
      omega
    cases hs : s with
    | nil => subst hs; simp at hlen
    | cons c cs =>
      subst hs
      simp only [List.length_cons, dropDupSelectF]
      rw [if_pos hsel, if_pos hsel]
      have hnext : (pyStrip ((c :: cs).drop 7)).length ≤ (c :: cs).length - 7 := by
        have := pyStrip_length_le ((c :: cs).drop 7)
        simp at this
        simp
        omega
      exact dropDupSelectF_stable _ _ _ (by simp at hnext ⊢; omega) (le_refl _)
  · cases hs : s with
    | nil => rfl
    | cons c cs =>
      subst hs
      simp only [List.length_cons, dropDupSelectF]
      rw [if_neg hsel, if_neg hsel]

lemma suffix_getLast? {l1 l2 : List α} (h : l1 <:+ l2) (hne : l1 ≠ []) :
    l2.getLast? = l1.getLast? := by
  rcases h with ⟨t, ht⟩
  subst ht
  rw [List.getLast?_append]
  cases hl : l1.getLast? with
  | none => exact absurd (List.getLast?_eq_none_iff.mp hl) hne
  | some c => rfl

lemma getLast?_nonws_of_rfix {y : List Char} (hy : pyRStrip y = y) (hne : y ≠ []) :
    ∃ c, y.getLast? = some c ∧ ¬ pyWS c := by
  cases hyr : y.reverse with
  | nil =>
    exact absurd (by simpa using congrArg List.reverse hyr) hne
  | cons c t =>
    refine ⟨c, ?_, ?_⟩
    · rw [← List.head?_reverse, hyr]; rfl
    · intro hws
      unfold pyRStrip at hy
      rw [hyr, List.dropWhile_cons, if_pos (by simpa using hws)] at hy
      have h1 := congrArg List.length hy
      have h2 := (List.dropWhile_sublist (l := t) pyWS).length_le
      have h3 : y.length = t.length + 1 := by
        have := congrArg List.length hyr
        simpa using this
      simp at h1
      omega

lemma rfix_of_getLast?_nonws {y : List Char}
    (h : ∀ c, y.getLast? = some c → ¬ pyWS c) : pyRStrip y = y := by
  cases hyr : y.reverse with
  | nil =>
    have : y = [] := by simpa using congrArg List.reverse hyr
    subst this; rfl
  | cons c t =>
    have hlast : y.getLast? = some c := by rw [← List.head?_reverse, hyr]; rfl
    unfold pyRStrip
    rw [hyr, List.dropWhile_cons, if_neg (by simpa using h c hlast)]
    rw [← hyr, List.reverse_reverse]

/-- Appending a semicolon to any statement: strip keeps the semicolon
and reduces to a left strip. -/
lemma pyStrip_append_semi (x : List Char) :
    pyStrip (x ++ [';']) = pyLStrip x ++ [';'] := by
  unfold pyStrip
  have h1 : pyLStrip (x ++ [';']) = pyLStrip x ++ [';'] := by
    by_cases hnil : pyLStrip x = []
    · have hws : ∀ c ∈ x, pyWS c := List.dropWhile_eq_nil_iff.mp hnil
      unfold pyLStrip
      rw [List.dropWhile_append_of_pos hws, show List.dropWhile pyWS x = [] from hnil]
      rfl
    · have hne : ¬ ((x.dropWhile pyWS).isEmpty = true) := by
        intro hh
        exact hnil (by simpa [pyLStrip] using List.isEmpty_iff.mp hh)
      unfold pyLStrip
      rw [List.dropWhile_append, if_neg hne]
  rw [h1]
  exact pyRStrip_append_nonws (by decide) (pyLStrip x)

/-- The SELECT SELECT loop guard ignores a trailing semicolon. -/
lemma dupGuard_append_semi (s : List Char) :
    (str "SELECT SELECT" <+: upperL (s ++ [';'])) ↔ (str "SELECT SELECT" <+: upperL s) := by
  have hup : upperL (s ++ [';']) = upperL s ++ [';'] := by
    unfold upperL
    rw [List.map_append]
    rfl
  rw [hup]
  constructor
  · intro h
    by_cases hlen : 13 ≤ s.length
    · have htake := List.prefix_iff_eq_take.mp h
      rw [List.take_append_of_le_length (by simpa [upperL] using hlen)] at htake
      rw [List.prefix_iff_eq_take]
      exact htake
    · rcases h with ⟨t, ht⟩
      have hl := congrArg List.length ht
      simp [upperL, str] at hl
      have htnil : t = [] := by
        have : t.length = 0 := by omega
        exact List.length_eq_zero.mp this
      subst htnil
      rw [List.append_nil] at ht
      have hlast := congrArg List.getLast? ht
      rw [List.getLast?_append] at hlast
      simp [str] at hlast
  · rintro ⟨t, ht⟩
    exact ⟨t ++ [';'], by rw [← ht, List.append_assoc]⟩

/-- The clean_sql loop commutes with a trailing semicolon on a stripped,
semicolon-free statement, and preserves strippedness and
semicolon-freeness. -/
lemma dropDupSelect_semi_aux : ∀ (n : Nat) (s : List Char), s.length ≤ n →
    pyStrip s = s → ';' ∉ s →
    dropDupSelect (s ++ [';']) = dropDupSelect s ++ [';'] ∧
      pyStrip (dropDupSelect s) = dropDupSelect s ∧ ';' ∉ dropDupSelect s := by
  intro n
  induction n with
  | zero =>
    intro s h hstrip hsemi
    have : s = [] := List.length_eq_zero.mp (Nat.le_zero.mp h)
    subst this
    refine ⟨by decide, by decide, by decide⟩
  | succ n ih =>
    intro s h hstrip hsemi
    rw [dropDupSelect_eq (s ++ [';']), dropDupSelect_eq s]
    by_cases hg : str "SELECT SELECT" <+: upperL s
    · rw [if_pos ((dupGuard_append_semi s).mpr hg), if_pos hg]
      have hlen : 13 ≤ s.length := by
        have := hg.length_le
        simp [str, upperL] at this
        omega
      -- the last character of s is not whitespace
      have hsne : s ≠ [] := by intro hh; subst hh; simp at hlen
      have hrfix : pyRStrip s = s := pyRStrip_eq_self_of_strip hstrip
      rcases getLast?_nonws_of_rfix hrfix hsne with ⟨c, hc, hcw⟩
      -- hence so is the last character of pyLStrip (s.drop 7)
      have hd7ne : s.drop 7 ≠ [] := by
        intro hh
        have := congrArg List.length hh
        simp at this
        omega
      have hd7last : (s.drop 7).getLast? = some c := by
        rw [← suffix_getLast? (List.drop_suffix 7 s) hd7ne, hc]
      have hlne : pyLStrip (s.drop 7) ≠ [] := by
        intro hh
        have hws := List.dropWhile_eq_nil_iff.mp hh
        have hmem : c ∈ s.drop 7 := by
          have := List.getLast?_eq_getLast (s.drop 7) hd7ne
          rw [hd7last] at this
          have hc2 : (s.drop 7).getLast hd7ne = c := by
            injection this.symm
          rw [← hc2]
          exact List.getLast_mem hd7ne
        exact hcw (hws c hmem)
      have hllast : (pyLStrip (s.drop 7)).getLast? = some c := by
        have hsfx := suffix_getLast? (List.dropWhile_suffix (l := s.drop 7) pyWS) hlne
        unfold pyLStrip
        rw [← hsfx, hd7last]
      have hlrfix : pyRStrip (pyLStrip (s.drop 7)) = pyLStrip (s.drop 7) := by
        apply rfix_of_getLast?_nonws
        intro d hd
        rw [hllast] at hd
        injection hd with hd
        subst hd
        exact hcw
      -- the next loop state with the semicolon appended
      have hbnext : pyStrip ((s ++ [';']).drop 7) = pyStrip (s.drop 7) ++ [';'] := by
        rw [List.drop_append_of_le_length (by omega)]
        rw [pyStrip_append_semi]
        unfold pyStrip
        rw [hlrfix]
      rw [hbnext]
      have hanext_strip : pyStrip (pyStrip (s.drop 7)) = pyStrip (s.drop 7) :=
        pyStrip_idem (s.drop 7)
      have hanext_semi : ';' ∉ pyStrip (s.drop 7) := by
        intro hmem
        apply hsemi
        have h1 : List.Sublist (pyStrip (s.drop 7)) (s.drop 7) := by
          unfold pyStrip
          exact ((pyRStrip_pref _).sublist).trans (List.dropWhile_sublist pyWS)
        exact (h1.trans (List.drop_sublist 7 s)).subset hmem
      have hanext_len : (pyStrip (s.drop 7)).length ≤ n := by
        have h1 := pyStrip_length_le (s.drop 7)
        simp at h1
        omega
      exact ih (pyStrip (s.drop 7)) hanext_len hanext_strip hanext_semi
    · rw [if_neg (fun hh => hg ((dupGuard_append_semi s).mp hh)), if_neg hg]
      exact ⟨rfl, hstrip, hsemi⟩

lemma dropDupSelect_semi (s : List Char) (hstrip : pyStrip s = s) (hsemi : ';' ∉ s) :
    dropDupSelect (s ++ [';']) = dropDupSelect s ++ [';'] ∧
      pyStrip (dropDupSelect s) = dropDupSelect s ∧ ';' ∉ dropDupSelect s :=
  dropDupSelect_semi_aux s.length s (le_refl _) hstrip hsemi

/-- clean_sql ignores all-whitespace padding around a nonempty
statement. -/
lemma clean_sql_ws_wrap {w1 w2 : List Char} (hw1 : ∀ c ∈ w1, pyWS c)
    (hw2 : ∀ c ∈ w2, pyWS c) (s : List Char) (hs : s ≠ []) :
    clean_sql (w1 ++ s ++ w2) = clean_sql s := by
  have hne : w1 ++ s ++ w2 ≠ [] := by
    intro hh
    rcases List.append_eq_nil.mp hh with ⟨hh1, _⟩
    rcases List.append_eq_nil.mp hh1 with ⟨_, hh3⟩
    exact hs hh3
  unfold clean_sql
  rw [if_neg hne, if_neg hs, pyStrip_ws_wrap hw1 hw2]

/-- clean_sql identifies a stripped, semicolon-free statement with the
same statement carrying one trailing semicolon. -/
lemma clean_sql_append_semi (s : List Char) (hne : s ≠ [])
    (hstrip : pyStrip s = s) (hsemi : ';' ∉ s) :
    clean_sql (s ++ [';']) = clean_sql s := by
  have hne2 : s ++ [';'] ≠ [] := by simp
  unfold clean_sql
  rw [if_neg hne2, if_neg hne]
  have hstrip2 : pyStrip (s ++ [';']) = s ++ [';'] := by
    rw [pyStrip_append_semi, pyLStrip_eq_self_of_strip hstrip]
  rw [hstrip2, hstrip]
  rcases dropDupSelect_semi s hstrip hsemi with ⟨hload, _, hsemir⟩
  show joinSpace (pySplitWS (if ';' ∈ dropDupSelect (s ++ [';']) then
      (dropDupSelect (s ++ [';'])).takeWhile (· != ';') ++ [';']
      else dropDupSelect (s ++ [';']) ++ [';'])) =
    joinSpace (pySplitWS (if ';' ∈ dropDupSelect s then
      (dropDupSelect s).takeWhile (· != ';') ++ [';'] else dropDupSelect s ++ [';']))
  rw [hload]
  have hmem1 : ';' ∈ dropDupSelect s ++ [';'] := by simp
  rw [if_pos hmem1, if_neg hsemir]
  have htake : (dropDupSelect s ++ [';']).takeWhile (· != ';') = dropDupSelect s := by
    rw [List.takeWhile_append_of_pos (by
      intro a ha
      have hane : a ≠ ';' := fun hEq => hsemir (hEq ▸ ha)
      simpa using hane)]
    simp
  rw [htake]

/-! ### C2: uniqueness of the injected LIMIT 50 occurrence -/

lemma limit_unique_occ (body rest : List Char) (hrest : rest = [] ∨ rest = [';'])
    (hnl : ¬ (str "LIMIT" <:+: upperL body)) :
    ∃! i : Nat, str "LIMIT 50" <+: (body ++ str " LIMIT 50" ++ rest).drop i := by
  set out := body ++ str " LIMIT 50" ++ rest with hout
  have hsplit : out = body ++ ' ' :: (str "LIMIT 50" ++ rest) := by
    rw [hout, List.append_assoc]
    rfl
  have hsplit2 : out = (body ++ [' ']) ++ (str "LIMIT 50" ++ rest) := by
    rw [hsplit]
    simp
  refine ⟨body.length + 1, ?_, ?_⟩
  · show str "LIMIT 50" <+: out.drop (body.length + 1)
    have h1 : out.drop (body.length + 1) = str "LIMIT 50" ++ rest := by
      rw [hsplit2]
      rw [show body.length + 1 = (body ++ [' ']).length + 0 by simp]
      rw [List.drop_append 0]
      rfl
    rw [h1]
    exact List.prefix_append _ _
  · intro j hj
    have hj2 : str "LIMIT 50" <+: out.drop j := hj
    rcases hj2 with ⟨t, ht⟩
    by_contra hne
    rcases Nat.lt_or_ge j (body.length + 1) with hjL | hjL
    · -- j at or before the end of the body
      have hjle : j ≤ body.length := by omega
      by_cases hfar : j + 5 ≤ body.length
      · -- the LIMIT keyword would sit entirely inside the body
        apply hnl
        have h5 : str "LIMIT" <+: out.drop j := by
          have hp : str "LIMIT" <+: str "LIMIT 50" := by decide
          exact hp.trans ⟨t, ht⟩
        have hdropj : out.drop j = body.drop j ++ (' ' :: (str "LIMIT 50" ++ rest)) := by
          rw [hsplit, List.drop_append_of_le_length hjle]
        rw [hdropj] at h5
        have htake : str "LIMIT" = (body.drop j).take 5 := by
          have h6 := List.prefix_iff_eq_take.mp h5
          rw [List.take_append_of_le_length
            (by rw [show (str "LIMIT").length = 5 from rfl, List.length_drop]; omega)] at h6
          exact h6
        have hinf : str "LIMIT" <:+: body := by
          rw [htake]
          exact ((List.take_prefix 5 (body.drop j)).isInfix).trans
            ((List.drop_suffix j body).isInfix)
        have h7 := hinf.map Char.toUpper
        rwa [show (str "LIMIT").map Char.toUpper = str "LIMIT" by decide] at h7
      · -- the occurrence straddles the boundary: the space mismatches
        have hval1 : out[body.length]? = some ' ' := by
          rw [hsplit, List.getElem?_append_right (le_refl _)]
          simp
        have hout2 : out = out.take j ++ (str "LIMIT 50" ++ t) := by
          conv_lhs => rw [← List.take_append_drop j out]
          rw [ht]
        have hjlen : j ≤ out.length := by
          rw [hsplit2]
          simp
          omega
        have hlen_take : (out.take j).length = j := by
          rw [List.length_take]
          omega
        have hval2 : out[body.length]? = (str "LIMIT 50")[body.length - j]? := by
          conv_lhs => rw [hout2]
          rw [List.getElem?_append_right (by omega)]
          rw [hlen_take]
          rw [List.getElem?_append_left
            (by rw [show (str "LIMIT 50").length = 8 from rfl]; omega)]
        rw [hval1] at hval2
        have hk2 : body.length - j < 5 := by omega
        interval_cases hke : (body.length - j) <;> simp [str] at hval2
    · -- j strictly after the injection point
      obtain ⟨m, hm⟩ : ∃ m, j = (body.length + 1) + m := ⟨j - (body.length + 1), by omega⟩
      subst hm
      have hm1 : 1 ≤ m := by omega
      have hdropj : out.drop (body.length + 1 + m) = (str "LIMIT 50" ++ rest).drop m := by
        rw [hsplit2]
        rw [show body.length + 1 + m = (body ++ [' ']).length + m by simp]
        rw [List.drop_append]
      have hpre : str "LIMIT 50" <+: (str "LIMIT 50" ++ rest).drop m := by
        rw [← hdropj]
        exact ⟨t, ht⟩
      have hlenb := hpre.length_le
      rw [List.length_drop] at hlenb
      have h9 : (str "LIMIT 50").length = 8 := rfl
      rcases hrest with hr | hr <;> subst hr
      · have h10 : (str "LIMIT 50" ++ ([] : List Char)).length = 8 := rfl
        omega
      · have hmeq : m = 1 := by
          have h10 : (str "LIMIT 50" ++ [';']).length = 9 := rfl
          omega
        subst hmeq
        have h8 : str "LIMIT 50" <+: str "IMIT 50;" := hpre
        exact absurd h8 (by decide)

lemma ensure_select_limit_inject (sql : List Char)
    (hsel : startsSelect (pyStrip sql) = true)
    (hnl : hasLimitSub (pyStrip sql) = false) :
    (∃! i : Nat, str "LIMIT 50" <+: (ensure_select_limit sql).drop i) ∧
    ((pyStrip sql).getLast? = some ';' →
      ensure_select_limit sql = (pyStrip sql).dropLast ++ str " LIMIT 50;") ∧
    ((pyStrip sql).getLast? ≠ some ';' →
      ensure_select_limit sql = pyStrip sql ++ str " LIMIT 50") := by
  have hrr : pyRStrip (pyStrip sql) = pyStrip sql := by
    unfold pyStrip
    rw [pyRStrip_idem]
  have hnl2 : ¬ (str "LIMIT" <:+: upperL (pyStrip sql)) := by
    simpa [hasLimitSub] using hnl
  have hred : ensure_select_limit sql =
      if (pyRStrip (pyStrip sql)).getLast? = some ';' then
        (pyRStrip (pyStrip sql)).dropLast ++ str " LIMIT 50;"
      else pyStrip sql ++ str " LIMIT 50" := by
    unfold ensure_select_limit
    rw [if_pos hsel, if_pos (by rw [hnl]; rfl)]
  rw [hred, hrr]
  by_cases hlast : (pyStrip sql).getLast? = some ';'
  · rw [if_pos hlast]
    refine ⟨?_, fun _ => rfl, fun hh => absurd hlast hh⟩
    have hnl3 : ¬ (str "LIMIT" <:+: upperL ((pyStrip sql).dropLast)) := by
      intro hinf
      exact hnl2 (hinf.trans ((List.dropLast_prefix (pyStrip sql)).isInfix.map Char.toUpper))
    have h1 := limit_unique_occ ((pyStrip sql).dropLast) [';'] (Or.inr rfl) hnl3
    have h2 : (pyStrip sql).dropLast ++ str " LIMIT 50" ++ [';'] =
        (pyStrip sql).dropLast ++ str " LIMIT 50;" := by
      rw [List.append_assoc]
      rfl
    rwa [h2] at h1
  · rw [if_neg hlast]
    refine ⟨?_, fun hh => absurd hh hlast, fun _ => rfl⟩
    have h1 := limit_unique_occ (pyStrip sql) [] (Or.inl rfl) hnl2
    have h2 : pyStrip sql ++ str " LIMIT 50" ++ [] = pyStrip sql ++ str " LIMIT 50" := by
      simp
    rwa [h2] at h1

lemma ensure_select_limit_skip (sql : List Char)
    (h : startsSelect (pyStrip sql) = false ∨ hasLimitSub (pyStrip sql) = true) :
    ensure_select_limit sql = pyStrip sql := by
  unfold ensure_select_limit
  by_cases hsel : startsSelect (pyStrip sql) = true
  · rw [if_pos hsel]
    rcases h with h | h
    · rw [hsel] at h
      exact absurd h (by simp)
    · rw [if_neg (by rw [h]; simp)]
  · rw [if_neg hsel]

/-! ## enhanced2.py: SQL extraction from model replies -/

/-- Case-insensitive character test used to model re.IGNORECASE. -/
def chEqCI (a b : Char) : Bool := a.toUpper == b.toUpper

/-- Does the needle match at the head of the haystack (optionally
case-insensitively)? -/
def matchesAt (ci : Bool) : List Char → List Char → Bool
  | [], _ => true
  | _ :: _, [] => false
  | n :: ns, h :: hs => (if ci then chEqCI n h else n == h) && matchesAt ci ns hs

/-- Index of the first match of the needle (re.search on a literal). -/
def findSub (ci : Bool) (needle : List Char) : List Char → Option Nat
  | [] => if matchesAt ci needle [] then some 0 else none
  | c :: cs =>
    if matchesAt ci needle (c :: cs) then some 0
    else (findSub ci needle cs).map (· + 1)

/-- Fuel-indexed scanner for re.findall("TAG\\s*([\\s\\S]*?)\\s*```"):
find the opening tag, then the nearest closing triple backtick; the
captured group is the enclosed text with surrounding whitespace
stripped; continue after the closing fence. -/
def scanBlocksF (ci : Bool) (openTag : List Char) : Nat → List Char → List (List Char)
  | 0, _ => []
  | fuel + 1, s =>
    match findSub ci openTag s with
    | none => []
    | some i =>
      let after := s.drop (i + openTag.length)
      match findSub false (str "```") after with
      | none => []
      | some j =>
        pyStrip (after.take j) :: scanBlocksF ci openTag fuel (after.drop (j + 3))

def findallBlocks (ci : Bool) (openTag : List Char) (s : List Char) : List (List Char) :=
  scanBlocksF ci openTag s.length s

/-- re.sub("^SQL:\\s*", "", t, IGNORECASE): drop one leading SQL: tag. -/
def dropSqlTag (t : List Char) : List Char :=
  if matchesAt true (str "SQL:") t then (t.drop 4).dropWhile pyWS else t

/-- extract_pure_sql from enhanced2.py (identical to _extract_pure_sql
in enhanced_sql.py): prefer the last fenced sql block, then the last
plain fenced block, then the last semicolon-separated part containing
SELECT, then the whole (tag-stripped) text; every result is cleaned. -/
def extract_pure_sql (t : List Char) : List Char :=
  if t = [] then str "SELECT 1;"
  else
    match findallBlocks true (str "```sql") t with
    | m :: rest => clean_sql ((m :: rest).getLast (List.cons_ne_nil m rest))
    | [] =>
      match findallBlocks false (str "```") t with
      | m :: rest => clean_sql ((m :: rest).getLast (List.cons_ne_nil m rest))
      | [] =>
        let ct := dropSqlTag t
        match (ct.splitOn ';').reverse.find? (fun p => decide (str "SELECT" <:+: upperL p)) with
        | some p => clean_sql p
        | none => clean_sql ct

example : extract_pure_sql (str "Sure! ```sql\nSELECT a FROM t\n``` done") =
    str "SELECT a FROM t;" := by decide
example : extract_pure_sql (str "x; SELECT b FROM u; trailing") = str "SELECT b FROM u;" := by decide
example : extract_pure_sql (str "hello world") = str "hello world;" := by decide
example : extract_pure_sql [] = str "SELECT 1;" := by decide
example : extract_pure_sql (str "SQL: SELECT c FROM v") = str "SELECT c FROM v;" := by decide

/-! ## enhanced2.py: execution-based validation filter -/

/-- Outcome of SQLValidator.validate_sql as far as filtering is
concerned: did the statement execute, and did it return rows. -/
structure VRes where
  valid : Bool
  hasResults : Bool

/-- SQLValidator.validate_candidates: validate each candidate in order. -/
def validate_candidates (validate : List Char → VRes) (candidates : List (List Char)) :
    List (List Char × VRes) :=
  candidates.map (fun sql => (sql, validate sql))

/-- SQLValidator.filter_valid_candidates: partition into
executes-with-rows, valid-but-empty and invalid, then return the first
nonempty tier (with-rows; with-rows plus empty; original list). -/
def filter_valid_candidates (validate : List Char → VRes) (candidates : List (List Char))
    (preferWithResults : Bool) : List (List Char) :=
  let validated := validate_candidates validate candidates
  let with_results := (validated.filter (fun p => p.2.valid && p.2.hasResults)).map (fun p => p.1)
  let valid_empty := (validated.filter (fun p => p.2.valid && !p.2.hasResults)).map (fun p => p.1)
  if preferWithResults && !with_results.isEmpty then with_results
  else if !with_results.isEmpty || !valid_empty.isEmpty then with_results ++ valid_empty
  else candidates

/-- The simpler validity filter inlined in generate_sql_enhanced
(enhanced_sql.py): keep the candidates that execute; if none do, keep
the original list.  It does not prioritise row-returning candidates. -/
def filter_valid_es (validate : List Char → Bool) (candidates : List (List Char)) :
    List (List Char) :=
  let valid := candidates.filter validate
  if valid.isEmpty then candidates else valid

/-! ## ranking-reply parsing -/

def natOfDigits (ds : List Char) : Nat :=
  ds.foldl (fun acc d => acc * 10 + (d.toNat - 48)) 0

/-- re.search("\\d+", s): the value of the first maximal digit run. -/
def firstDigitRun : List Char → Option Nat
  | [] => none
  | c :: cs =>
    if c.isDigit then some (natOfDigits ((c :: cs).takeWhile Char.isDigit))
    else firstDigitRun cs

/-- EnhancedText2SQL.rank_candidates reply parsing: if the literal
marker occurs, take the segment up to the next marker occurrence, strip
it and read the first digit run there; otherwise read the first digit
run of the whole reply; both default to 0 when absent. -/
def e2Segment (reply : List Char) (i : Nat) : List Char :=
  match findSub false (str "Best_Candidate_Index:")
      (reply.drop (i + (str "Best_Candidate_Index:").length)) with
  | some j => (reply.drop (i + (str "Best_Candidate_Index:").length)).take j
  | none => reply.drop (i + (str "Best_Candidate_Index:").length)

def rank_index_e2 (reply : List Char) : Nat :=
  match findSub false (str "Best_Candidate_Index:") reply with
  | some i => (firstDigitRun (pyStrip (e2Segment reply i))).getD 0
  | none => (firstDigitRun reply).getD 0

/-- EnhancedText2SQL.rank_candidates: empty input gives the literal
fallback, a single candidate short-circuits, and an out-of-range parsed
index falls back to the first candidate. -/
def rank_candidates (candidates : List (List Char)) (reply : List Char) : List Char :=
  match candidates with
  | [] => str "SELECT 1;"
  | [c] => c
  | c :: d :: rest =>
    let idx := rank_index_e2 reply
    if idx < (c :: d :: rest).length then (c :: d :: rest).getD idx c else c

/-- One anchored attempt of
re.search("Best_Candidate_Index:\\s*(\\d+)", s, IGNORECASE) at the
head of s: the marker, optional whitespace, then at least one digit;
the captured group is the digit run. -/
def markerHere (s : List Char) : Option Nat :=
  if matchesAt true (str "Best_Candidate_Index:") s then
    match (s.drop 21).dropWhile pyWS with
    | c :: cs => if c.isDigit then some (natOfDigits ((c :: cs).takeWhile Char.isDigit)) else none
    | [] => none
  else none

/-- The scan of re.search: try each position left to right. -/
def markerDigitsF : Nat → List Char → Option Nat
  | 0, _ => none
  | fuel + 1, s =>
    (markerHere s).orElse (fun _ =>
      match s with
      | [] => none
      | _ :: cs => markerDigitsF fuel cs)

def markerDigits (s : List Char) : Option Nat := markerDigitsF (s.length + 1) s

/-- The ranking-index parse in generate_sql_enhanced (enhanced_sql.py):
marker-anchored digits first, else the first digit run; the parsed
index is clamped with min to the last candidate index; an unparseable
reply yields 0. -/
def rank_index_es (reply : List Char) (n : Nat) : Nat :=
  match markerDigits reply with
  | some v => min v (n - 1)
  | none =>
    match firstDigitRun reply with
    | some v => min v (n - 1)
    | none => 0

/-- The tail of generate_sql_enhanced: a single surviving candidate is
returned without any ranking call, otherwise the ranking reply is
parsed and the (clamped) index selects the candidate. -/
def choose_ranked_es (valid : List (List Char)) (reply : List Char) : List Char :=
  match valid with
  | [] => []
  | [c] => c
  | c :: d :: rest => (c :: d :: rest).getD (rank_index_es reply (c :: d :: rest).length) c

/-! ## rag_service.py: reciprocal rank fusion and hybrid search -/

/-- A retrieved chunk; fusion identity is the page content. -/
structure Doc where
  pageContent : List Char
  sourceId : Nat
deriving DecidableEq

/-- One entry of the running score dictionary (insertion ordered). -/
structure Entry where
  key : List Char
  doc : Doc
  score : ℚ
deriving DecidableEq

/-- One dictionary step of _rrf_fusion: create the entry with score 0
on first sight of the content key, then add the contribution (the two
steps are merged into one update here). -/
def bump (table : List Entry) (d : Doc) (delta : ℚ) : List Entry :=
  if table.any (fun e => e.key == d.pageContent) then
    table.map (fun e => if e.key == d.pageContent then { e with score := e.score + delta } else e)
  else table ++ [⟨d.pageContent, d, delta⟩]

/-- The enumerate loop of _rrf_fusion over one result list: the item at
zero-based rank r contributes 1 / (rrf_k + r + 1). -/
def addDocs (rrf_k : Nat) : List Entry → Nat → List Doc → List Entry
  | table, _, [] => table
  | table, rank, d :: ds =>
    addDocs rrf_k (bump table d (1 / ((rrf_k : ℚ) + rank + 1))) (rank + 1) ds

/-- The full score dictionary after both lists are accumulated. -/
def rrfTable (list1 list2 : List Doc) (rrf_k : Nat) : List Entry :=
  addDocs rrf_k (addDocs rrf_k [] 0 list1) 0 list2

/-- RAGService._rrf_fusion with rrf_k = 60: accumulate both ranked
lists keyed by content, sort by score descending (stably), return the
documents of the top k entries. -/
def rrf_fusion (list1 list2 : List Doc) (k : Nat) : List Doc :=
  (((rrfTable list1 list2 60).mergeSort (fun a b => decide (b.score ≤ a.score))).take k).map
    (fun e => e.doc)

def lookupScore (table : List Entry) (key : List Char) : Option ℚ :=
  (table.find? (fun e => e.key == key)).map (fun e => e.score)

/-- RAGService.hybrid_search, abstracted over the search backends: if
the vector store is absent the function returns the empty list
regardless of the BM25 index; otherwise a missing or failing BM25
search degrades to an empty second list before fusion. -/
def hybrid_search (vectorResults : Option (List Doc)) (bm25Results : Option (List Doc))
    (k : Nat) : List Doc :=
  match vectorResults with
  | none => []
  | some vs =>
    let bs := match bm25Results with
      | none => []
      | some xs => xs
    rrf_fusion vs bs k

/-! ## tools.py: session execution environments -/

/-- A data-source handle as passed to the agent: an uploaded file path
or a remote connection url. -/
structure DataSource where
  db_path : Option (List Char)
  connection_url : Option (List Char)
deriving DecidableEq

/-- llm_service.py line 571: session_id = db_path if db_path else
"remote_db". -/
def session_id_of (ds : DataSource) : List Char :=
  match ds.db_path with
  | some p => p
  | none => str "remote_db"

/-- The process-wide _PYTHON_EXEC_ENVIRONMENTS table: an association
list from session id to an association list of variable bindings. -/
abbrev EnvStore (α : Type) : Type := List (List Char × List (List Char × α))

def env_set {α : Type} (env : List (List Char × α)) (var : List Char) (v : α) :
    List (List Char × α) :=
  if env.any (fun p => p.1 == var) then
    env.map (fun p => if p.1 == var then (var, v) else p)
  else env ++ [(var, v)]

/-- _get_exec_environment: the session's binding table, empty (modulo
the fixed builtins) when the session has not been seen yet. -/
def get_exec_environment {α : Type} (store : EnvStore α) (sid : List Char) :
    List (List Char × α) :=
  match store.find? (fun p => p.1 == sid) with
  | some p => p.2
  | none => []

/-- The binding made by extract_data: run the query, then set the
target variable in the session environment. -/
def extract_data_bind {α : Type} (store : EnvStore α) (sid var : List Char) (v : α) :
    EnvStore α :=
  if store.any (fun p => p.1 == sid) then
    store.map (fun p => if p.1 == sid then (sid, env_set p.2 var v) else p)
  else store ++ [(sid, env_set [] var v)]

/-- The read made by python_inter when a script references a variable. -/
def lookup_var {α : Type} (store : EnvStore α) (sid var : List Char) : Option α :=
  ((get_exec_environment store sid).find? (fun p => p.1 == var)).map (fun p => p.2)

/-! ## llm_service.py: the streaming agent loop -/

inductive ToolStatus
  | start
  | pendingApproval
deriving DecidableEq

/-- The streamed event dictionaries of agent_analyze_database_stream. -/
inductive Event
  | text (content : List Char)
  | toolCall (tool : List Char) (status : ToolStatus) (sqlCode : Option (List Char))
  | toolResult (tool : List Char) (result : List Char) (success : Bool)
  | error (msg : List Char)
  | done
deriving DecidableEq

/-- One assembled tool call of a completed model turn. -/
structure ToolCallRec where
  id : List Char
  name : List Char
  arguments : List Char
deriving DecidableEq

/-- The outcome of one streaming provider call: a transient failure
(with the text chunks already forwarded before the exception), or a
completed turn with its text chunks and assembled tool calls. -/
inductive ProviderResult
  | failure (partialChunks : List (List Char)) (msg : List Char)
  | success (chunks : List (List Char)) (toolCalls : List (Option ToolCallRec))

structure LoopConfig where
  allowAutoExecute : Bool
  useSqlExpert : Bool
  dbPath : Option (List Char)
  maxToolRounds : Nat

/-- The per-tool permissive fallback applied when json.loads fails on
the arguments buffer. -/
def fallbackArgs (name raw : List Char) : List (List Char × List Char) :=
  if name = str "python_inter" then [(str "py_code", raw)]
  else if name = str "sql_inter" then [(str "sql_query", raw)]
  else if name = str "extract_data" then [(str "sql_query", raw), (str "df_name", str "df")]
  else []

def argLookup (args : List (List Char × List Char)) (key : List Char) : Option (List Char) :=
  (args.find? (fun p => p.1 == key)).map (fun p => p.2)

/-- valid_tool_calls: drop unfilled accumulator slots and calls with an
empty name. -/
def validToolCalls (tcs : List (Option ToolCallRec)) : List ToolCallRec :=
  (tcs.filterMap id).filter (fun tc => !tc.name.isEmpty)

def retryNotice : Event := Event.text (str "\n⚠️ [网络波动，正在重试...]\n")

/-- Processing of a single requested tool call: parse or fall back,
optionally substitute the expert SQL, gate on the approval flag, else
execute and report the result (or the caught error) as data. -/
def processOneCall (cfg : LoopConfig)
    (parse : List Char → Option (List (List Char × List Char)))
    (expertSql : Option (List Char))
    (exec : List Char → List (List Char × List Char) → Except (List Char) (List Char))
    (tc : ToolCallRec) : List Event × Bool :=
  let args0 := match parse tc.arguments with
    | some kvs => kvs
    | none => fallbackArgs tc.name tc.arguments
  let isData := (tc.name == str "sql_inter") || (tc.name == str "extract_data")
  let sql0 : Option (List Char) := if isData then argLookup args0 (str "sql_query") else none
  let step : Option (List Char) × List (List Char × List Char) :=
    if cfg.useSqlExpert && cfg.dbPath.isSome && isData then
      match expertSql with
      | some es => (some es, env_set args0 (str "sql_query") es)
      | none => (sql0, args0)
    else (sql0, args0)
  if isData && !cfg.allowAutoExecute then
    ([Event.toolCall tc.name ToolStatus.pendingApproval step.1, Event.done], true)
  else
    let startEv := Event.toolCall tc.name ToolStatus.start
      (match step.1 with
       | some s => if s.isEmpty then none else some s
       | none => none)
    match exec tc.name step.2 with
    | Except.ok r => ([startEv, Event.toolResult tc.name r true], false)
    | Except.error e =>
      ([startEv, Event.toolResult tc.name (str "Error (" ++ tc.name ++ str "): " ++ e) false],
        false)

/-- Execute the round's tool calls in request order, suspending the
whole stream at the first pending-approval gate. -/
def processCalls (cfg : LoopConfig)
    (parse : List Char → Option (List (List Char × List Char)))
    (expertSql : Option (List Char))
    (exec : List Char → List (List Char × List Char) → Except (List Char) (List Char)) :
    List ToolCallRec → List Event × Bool
  | [] => ([], false)
  | tc :: rest =>
    let r1 := processOneCall cfg parse expertSql exec tc
    if r1.2 then (r1.1, true)
    else
      let r2 := processCalls cfg parse expertSql exec rest
      (r1.1 ++ r2.1, r2.2)

/-- The retry loop (max_retries = 3, exponential backoff): provider
calls are numbered globally; a failed attempt forwards the partial text
then a visible retry notice (except after the final attempt). -/
def tryAttempts (provider : Nat → ProviderResult) (calls : Nat) :
    List Event × Nat × Except (List Char) (List (List Char) × List (Option ToolCallRec)) :=
  match provider calls with
  | ProviderResult.success cs tcs => ([], calls + 1, Except.ok (cs, tcs))
  | ProviderResult.failure p1 _ =>
    match provider (calls + 1) with
    | ProviderResult.success cs tcs =>
      (p1.map Event.text ++ [retryNotice], calls + 2, Except.ok (cs, tcs))
    | ProviderResult.failure p2 _ =>
      match provider (calls + 2) with
      | ProviderResult.success cs tcs =>
        (p1.map Event.text ++ [retryNotice] ++ p2.map Event.text ++ [retryNotice],
          calls + 3, Except.ok (cs, tcs))
      | ProviderResult.failure p3 m3 =>
        (p1.map Event.text ++ [retryNotice] ++ p2.map Event.text ++ [retryNotice] ++
          p3.map Event.text, calls + 3, Except.error m3)

/-- The while loop of agent_analyze_database_stream, by remaining
rounds; returns the emitted events and the total number of provider
calls made. -/
def agentRounds (cfg : LoopConfig) (provider : Nat → ProviderResult)
    (parse : List Char → Option (List (List Char × List Char)))
    (expertSql : Option (List Char))
    (exec : List Char → List (List Char × List Char) → Except (List Char) (List Char)) :
    Nat → Nat → List Event × Nat
  | 0, calls => ([Event.error (str "Max tool rounds reached."), Event.done], calls)
  | remaining + 1, calls =>
    let a := tryAttempts provider calls
    match a.2.2 with
    | Except.error m =>
      (a.1 ++ [Event.error (str "Process Error: " ++ m), Event.done], a.2.1)
    | Except.ok (cs, tcs) =>
      let textEv := cs.map Event.text
      let valid := validToolCalls tcs
      if valid.isEmpty then
        (a.1 ++ textEv ++
          (if cs.flatten.isEmpty then [Event.text (str "分析完成。")] else []) ++
          [Event.done], a.2.1)
      else
        let r := processCalls cfg parse expertSql exec valid
        if r.2 then (a.1 ++ textEv ++ r.1, a.2.1)
        else
          let q := agentRounds cfg provider parse expertSql exec remaining a.2.1
          (a.1 ++ textEv ++ r.1 ++ q.1, q.2)

/-- agent_analyze_database_stream with use_rag = False and no user
memory (so no grounding preamble events), abstracted over the provider,
the JSON argument parser, the expert-SQL pipeline and the tool
executor. -/
def agent_analyze_database_stream (cfg : LoopConfig) (provider : Nat → ProviderResult)
    (parse : List Char → Option (List (List Char × List Char)))
    (expertSql : Option (List Char))
    (exec : List Char → List (List Char × List Char) → Except (List Char) (List Char)) :
    List Event × Nat :=
  agentRounds cfg provider parse expertSql exec cfg.maxToolRounds 0

/-- confirm_and_resume_stream (chat.py): execute the approved SQL once
through execute_tool (a raised exception becomes an error string), emit
one synthetic successful tool_result, then stream the restarted agent
loop; the second component counts the executions of the approved
statement performed by the entry point itself. -/
def confirm_and_resume_stream (execSql : List Char → Except (List Char) (List Char))
    (approvedSql : List Char) (resumeEvents : List Event) : List Event × Nat :=
  let result := match execSql approvedSql with
    | Except.ok r => r
    | Except.error e => str "Error: " ++ e
  (Event.toolResult (str "sql_inter") result true :: resumeEvents, 1)

def isToolResultEv : Event → Bool
  | Event.toolResult _ _ _ => true
  | _ => false

def isErrorEv : Event → Bool
  | Event.error _ => true
  | _ => false

lemma processOneCall_pending (cfg : LoopConfig) (parse : List Char → Option (List (List Char × List Char)))
    (expertSql : Option (List Char))
    (exec : List Char → List (List Char × List Char) → Except (List Char) (List Char))
    (tc : ToolCallRec) (hauto : cfg.allowAutoExecute = false)
    (hname : tc.name = str "sql_inter" ∨ tc.name = str "extract_data") :
    ∃ sc, processOneCall cfg parse expertSql exec tc =
      ([Event.toolCall tc.name ToolStatus.pendingApproval sc, Event.done], true) := by
  rcases hname with h | h <;>
    exact ⟨_, by simp [processOneCall, hauto, h]; rfl⟩

lemma processCalls_pending_head (cfg : LoopConfig)
    (parse : List Char → Option (List (List Char × List Char)))
    (expertSql : Option (List Char))
    (exec : List Char → List (List Char × List Char) → Except (List Char) (List Char))
    (tc : ToolCallRec) (rest : List ToolCallRec) (hauto : cfg.allowAutoExecute = false)
    (hname : tc.name = str "sql_inter" ∨ tc.name = str "extract_data") :
    ∃ sc, processCalls cfg parse expertSql exec (tc :: rest) =
      ([Event.toolCall tc.name ToolStatus.pendingApproval sc, Event.done], true) := by
  rcases processOneCall_pending cfg parse expertSql exec tc hauto hname with ⟨sc, hone⟩
  refine ⟨sc, ?_⟩
  simp only [processCalls, hone]
  simp

lemma processOneCall_no_gate (cfg : LoopConfig)
    (parse : List Char → Option (List (List Char × List Char)))
    (expertSql : Option (List Char))
    (exec : List Char → List (List Char × List Char) → Except (List Char) (List Char))
    (tc : ToolCallRec) (hauto : cfg.allowAutoExecute = true) :
    (processOneCall cfg parse expertSql exec tc).2 = false ∧
      ∀ e ∈ (processOneCall cfg parse expertSql exec tc).1,
        isErrorEv e = false ∧ e ≠ Event.done ∧ e ≠ Event.text [] := by
  unfold processOneCall
  simp only [hauto, Bool.not_true, Bool.and_false, Bool.false_eq_true, if_false]
  cases exec tc.name _ with
  | ok r =>
    refine ⟨rfl, ?_⟩
    intro e he
    rcases List.mem_cons.mp he with he | he
    · subst he; exact ⟨rfl, by simp, by simp⟩
    · rcases List.mem_cons.mp he with he | he
      · subst he; exact ⟨rfl, by simp, by simp⟩
      · simp at he
  | error m =>
    refine ⟨rfl, ?_⟩
    intro e he
    rcases List.mem_cons.mp he with he | he
    · subst he; exact ⟨rfl, by simp, by simp⟩
    · rcases List.mem_cons.mp he with he | he
      · subst he; exact ⟨rfl, by simp, by simp⟩
      · simp at he

lemma processCalls_no_gate (cfg : LoopConfig)
    (parse : List Char → Option (List (List Char × List Char)))
    (expertSql : Option (List Char))
    (exec : List Char → List (List Char × List Char) → Except (List Char) (List Char))
    (hauto : cfg.allowAutoExecute = true) :
    ∀ tcs, (processCalls cfg parse expertSql exec tcs).2 = false ∧
      ∀ e ∈ (processCalls cfg parse expertSql exec tcs).1,
        isErrorEv e = false ∧ e ≠ Event.done ∧ e ≠ Event.text [] := by
  intro tcs
  induction tcs with
  | nil => exact ⟨rfl, by intro e he; simp [processCalls] at he⟩
  | cons tc rest ih =>
    rcases processOneCall_no_gate cfg parse expertSql exec tc hauto with ⟨h1, h2⟩
    simp only [processCalls, h1, Bool.false_eq_true, if_false]
    refine ⟨ih.1, ?_⟩
    intro e he
    rcases List.mem_append.mp he with he | he
    · exact h2 e he
    · exact ih.2 e he

/-- C1 core: with approval gating on, a first model turn requesting the
query-execution or data-extraction tool makes the stream emit its text,
then one pending-approval tool_call, then done, and suspend after a
single provider call; no tool is executed and no tool_result appears. -/
lemma agent_pending_suspends (cfg : LoopConfig) (provider : Nat → ProviderResult)
    (parse : List Char → Option (List (List Char × List Char)))
    (expertSql : Option (List Char))
    (exec : List Char → List (List Char × List Char) → Except (List Char) (List Char))
    (chunks : List (List Char)) (tcs : List (Option ToolCallRec))
    (tc : ToolCallRec) (rest : List ToolCallRec)
    (hauto : cfg.allowAutoExecute = false)
    (hrounds : 1 ≤ cfg.maxToolRounds)
    (hp : provider 0 = ProviderResult.success chunks tcs)
    (hvalid : validToolCalls tcs = tc :: rest)
    (hname : tc.name = str "sql_inter" ∨ tc.name = str "extract_data") :
    ∃ sc, agent_analyze_database_stream cfg provider parse expertSql exec =
      (chunks.map Event.text ++
        [Event.toolCall tc.name ToolStatus.pendingApproval sc, Event.done], 1) := by
  rcases processCalls_pending_head cfg parse expertSql exec tc rest hauto hname with ⟨sc, hpc⟩
  refine ⟨sc, ?_⟩
  obtain ⟨r, hr⟩ : ∃ r, cfg.maxToolRounds = r + 1 :=
    ⟨cfg.maxToolRounds - 1, by omega⟩
  unfold agent_analyze_database_stream
  rw [hr]
  have hta : tryAttempts provider 0 = ([], 1, Except.ok (chunks, tcs)) := by
    unfold tryAttempts
    rw [hp]
  simp only [agentRounds, hta, hvalid, hpc]
  simp

/-- No event of the suspended stream is a tool_result. -/
lemma agent_pending_no_toolResult (chunks : List (List Char)) (tool : List Char)
    (sc : Option (List Char)) :
    ∀ e ∈ chunks.map Event.text ++
      [Event.toolCall tool ToolStatus.pendingApproval sc, Event.done],
      isToolResultEv e = false := by
  intro e he
  rcases List.mem_append.mp he with he | he
  · rcases List.mem_map.mp he with ⟨c, _, hc⟩
    rw [← hc]
    rfl
  · rcases List.mem_cons.mp he with he | he
    · subst he; rfl
    · rcases List.mem_cons.mp he with he | he
      · subst he; rfl
      · simp at he

/-- C5 core: with auto-execution on, a provider that always completes
and always requests at least one valid tool call drives the loop
through exactly its remaining rounds, one provider call each, ending in
the max-rounds error and done, with no other error or done event. -/
lemma agentRounds_max (cfg : LoopConfig) (provider : Nat → ProviderResult)
    (parse : List Char → Option (List (List Char × List Char)))
    (expertSql : Option (List Char))
    (exec : List Char → List (List Char × List Char) → Except (List Char) (List Char))
    (hauto : cfg.allowAutoExecute = true)
    (hp : ∀ i, ∃ cs tcs, provider i = ProviderResult.success cs tcs ∧ validToolCalls tcs ≠ []) :
    ∀ (remaining calls : Nat),
      (agentRounds cfg provider parse expertSql exec remaining calls).2 = calls + remaining ∧
      ∃ pre, (agentRounds cfg provider parse expertSql exec remaining calls).1 =
          pre ++ [Event.error (str "Max tool rounds reached."), Event.done] ∧
        ∀ e ∈ pre, isErrorEv e = false ∧ e ≠ Event.done := by
  intro remaining
  induction remaining with
  | zero =>
    intro calls
    exact ⟨by simp [agentRounds], [], by simp [agentRounds], by intro e he; simp at he⟩
  | succ r ih =>
    intro calls
    obtain ⟨cs, tcs, hpi, hvne⟩ := hp calls
    have hta : tryAttempts provider calls = ([], calls + 1, Except.ok (cs, tcs)) := by
      unfold tryAttempts
      rw [hpi]
    have hvempty : (validToolCalls tcs).isEmpty = false := by
      cases hvt : validToolCalls tcs with
      | nil => exact absurd hvt hvne
      | cons a b => rfl
    rcases processCalls_no_gate cfg parse expertSql exec hauto (validToolCalls tcs) with
      ⟨hsusp, hclean⟩
    rcases ih (calls + 1) with ⟨ihc, pre, ihev, ihclean⟩
    constructor
    · simp only [agentRounds, hta, hvempty, hsusp]
      simp only [Bool.false_eq_true, if_false]
      rw [ihc]
      omega
    · refine ⟨cs.map Event.text ++ (processCalls cfg parse expertSql exec (validToolCalls tcs)).1
        ++ pre, ?_, ?_⟩
      · simp only [agentRounds, hta, hvempty, hsusp]
        simp only [Bool.false_eq_true, if_false]
        rw [ihev]
        simp
      · intro e he
        rcases List.mem_append.mp he with he | he
        · rcases List.mem_append.mp he with he | he
          · rcases List.mem_map.mp he with ⟨c, _, hc⟩
            rw [← hc]
            exact ⟨rfl, by simp⟩
          · rcases hclean e he with ⟨h1, h2, _⟩
            exact ⟨h1, h2⟩
        · exact ihclean e he

/-! ### C4: score accumulation lemmas -/

lemma bump_map_key (e : Entry) (pc : List Char) (delta : ℚ) :
    ((fun e => if e.key == pc then { e with score := e.score + delta } else e) e).key = e.key := by
  by_cases h : e.key == pc
  · simp [h]
  · simp [h]

lemma lookupScore_bump_same (table : List Entry) (d : Doc) (delta : ℚ) :
    lookupScore (bump table d delta) d.pageContent =
      some ((lookupScore table d.pageContent).getD 0 + delta) := by
  unfold bump
  by_cases hany : table.any (fun e => e.key == d.pageContent)
  · rw [if_pos hany]
    unfold lookupScore
    rw [List.find?_map]
    have hcomp : ((fun e : Entry => e.key == d.pageContent) ∘
        (fun e => if e.key == d.pageContent then { e with score := e.score + delta } else e)) =
        fun e : Entry => e.key == d.pageContent := by
      funext e
      simp only [Function.comp_apply, bump_map_key]
    rw [hcomp]
    rcases hf : table.find? (fun e => e.key == d.pageContent) with _ | e
    · rcases List.any_eq_true.mp hany with ⟨e, he, hek⟩
      rw [List.find?_eq_none] at hf
      exact absurd hek (hf e he)
    · have hek := List.find?_some hf
      rw [hf]
      simp [hek]
      rw [if_pos (beq_iff_eq.mp hek)]
  · rw [if_neg hany]
    unfold lookupScore
    rw [List.find?_append]
    have hnone : table.find? (fun e => e.key == d.pageContent) = none := by
      rw [List.find?_eq_none]
      intro x hx hpx
      exact hany (List.any_eq_true.mpr ⟨x, hx, hpx⟩)
    rw [hnone]
    simp

lemma lookupScore_bump_other (table : List Entry) (d : Doc) (delta : ℚ) (c : List Char)
    (hne : c ≠ d.pageContent) :
    lookupScore (bump table d delta) c = lookupScore table c := by
  unfold bump
  by_cases hany : table.any (fun e => e.key == d.pageContent)
  · rw [if_pos hany]
    unfold lookupScore
    rw [List.find?_map]
    have hcomp : ((fun e : Entry => e.key == c) ∘
        (fun e => if e.key == d.pageContent then { e with score := e.score + delta } else e)) =
        fun e : Entry => e.key == c := by
      funext e
      simp only [Function.comp_apply, bump_map_key]
    rw [hcomp]
    rcases hf : table.find? (fun e => e.key == c) with _ | e
    · rw [hf]
      rfl
    · have hek := List.find?_some hf
      rw [hf]
      simp only [beq_iff_eq] at hek
      have hek2 : ¬ (e.key == d.pageContent) = true := by
        simp only [beq_iff_eq]
        rw [hek]
        exact hne
      simp [hek2]
      rw [if_neg (by simpa using hek2)]
  · rw [if_neg hany]
    unfold lookupScore
    rw [List.find?_append]
    have hsingle : List.find? (fun e : Entry => e.key == c)
        [⟨d.pageContent, d, delta⟩] = none := by
      rw [List.find?_eq_none]
      intro x hx hpx
      rcases List.mem_singleton.mp hx with rfl
      simp only [beq_iff_eq] at hpx
      exact hne hpx.symm
    rw [hsingle, Option.or_none]

lemma addDocs_lookup_not_mem (rrf_k : Nat) :
    ∀ (docs : List Doc) (table : List Entry) (rank : Nat) (c : List Char),
      (∀ d ∈ docs, d.pageContent ≠ c) →
      lookupScore (addDocs rrf_k table rank docs) c = lookupScore table c := by
  intro docs
  induction docs with
  | nil => intro table rank c _; rfl
  | cons d ds ih =>
    intro table rank c hnm
    simp only [addDocs]
    rw [ih _ _ c (fun x hx => hnm x (List.mem_cons_of_mem d hx))]
    exact lookupScore_bump_other table d _ c
      (fun hh => hnm d (List.mem_cons_self d ds) hh.symm)

lemma addDocs_lookup_at (rrf_k : Nat) :
    ∀ (docs : List Doc) (table : List Entry) (rank j : Nat) (d : Doc) (c : List Char),
      (docs.map (fun x => x.pageContent)).Nodup →
      docs[j]? = some d → d.pageContent = c →
      lookupScore (addDocs rrf_k table rank docs) c =
        some ((lookupScore table c).getD 0 + 1 / ((rrf_k : ℚ) + (rank + j) + 1)) := by
  intro docs
  induction docs with
  | nil =>
    intro table rank j d c _ hj _
    simp at hj
  | cons d0 ds ih =>
    intro table rank j d c hnd hj hc
    simp only [List.map_cons, List.nodup_cons] at hnd
    cases j with
    | zero =>
      simp only [List.getElem?_cons_zero, Option.some_inj] at hj
      subst hj
      simp only [addDocs]
      have hnm : ∀ x ∈ ds, x.pageContent ≠ c := by
        intro x hx hxc
        exact hnd.1 (by rw [hc, ← hxc]; exact List.mem_map_of_mem _ hx)
      rw [addDocs_lookup_not_mem rrf_k ds _ _ c hnm]
      rw [← hc]
      rw [lookupScore_bump_same]
      congr 2
      push_cast
      ring
    | succ j2 =>
      simp only [List.getElem?_cons_succ] at hj
      have hdc : d0.pageContent ≠ c := by
        intro hh
        apply hnd.1
        rw [hh, ← hc]
        have hdm : d ∈ ds := by
          have := List.getElem?_mem hj
          exact this
        exact List.mem_map_of_mem _ hdm
      simp only [addDocs]
      rw [ih _ (rank + 1) j2 d c hnd.2 hj hc]
      rw [lookupScore_bump_other _ _ _ _ (fun hh => hdc hh.symm)]
      congr 2
      push_cast
      ring

/-- The score table key invariant: keys are the distinct page contents
in first-seen order, and each entry stores the document itself. -/
lemma bump_keys (table : List Entry) (d : Doc) (delta : ℚ) :
    (bump table d delta).map (fun e => e.key) = table.map (fun e => e.key) ∨
    (bump table d delta).map (fun e => e.key) =
      table.map (fun e => e.key) ++ [d.pageContent] := by
  unfold bump
  by_cases hany : table.any (fun e => e.key == d.pageContent)
  · left
    rw [if_pos hany, List.map_map]
    congr 1
    funext e
    simp only [Function.comp_apply, bump_map_key]
  · right
    rw [if_neg hany, List.map_append]
    rfl

lemma bump_keys_nodup (table : List Entry) (d : Doc) (delta : ℚ)
    (h : (table.map (fun e => e.key)).Nodup) :
    ((bump table d delta).map (fun e => e.key)).Nodup := by
  unfold bump
  by_cases hany : table.any (fun e => e.key == d.pageContent)
  · rw [if_pos hany, List.map_map]
    have hcomp : ((fun e : Entry => e.key) ∘
        (fun e => if e.key == d.pageContent then { e with score := e.score + delta } else e)) =
        fun e : Entry => e.key := by
      funext e
      simp only [Function.comp_apply, bump_map_key]
    rw [hcomp]
    exact h
  · rw [if_neg hany, List.map_append]
    rw [List.nodup_append]
    refine ⟨h, List.nodup_singleton _, ?_⟩
    intro a ha hb
    rcases List.mem_singleton.mp hb with rfl
    rcases List.mem_map.mp ha with ⟨e, he, hek⟩
    apply hany
    exact List.any_eq_true.mpr ⟨e, he, by simp [hek]⟩

lemma addDocs_keys_nodup (rrf_k : Nat) :
    ∀ (docs : List Doc) (table : List Entry) (rank : Nat),
      ((table.map (fun e => e.key)).Nodup) →
      ((addDocs rrf_k table rank docs).map (fun e => e.key)).Nodup := by
  intro docs
  induction docs with
  | nil => intro table rank h; exact h
  | cons d ds ih =>
    intro table rank h
    simp only [addDocs]
    exact ih _ _ (bump_keys_nodup table d _ h)

lemma bump_key_doc (table : List Entry) (d : Doc) (delta : ℚ)
    (h : ∀ e ∈ table, e.key = e.doc.pageContent) :
    ∀ e ∈ bump table d delta, e.key = e.doc.pageContent := by
  unfold bump
  by_cases hany : table.any (fun e => e.key == d.pageContent)
  · rw [if_pos hany]
    intro e he
    rcases List.mem_map.mp he with ⟨e0, he0, heq⟩
    by_cases hk : e0.key == d.pageContent
    · rw [← heq]
      simp only [hk, if_true]
      exact h e0 he0
    · rw [← heq]
      simp only [hk, Bool.false_eq_true, if_false]
      exact h e0 he0
  · rw [if_neg hany]
    intro e he
    rcases List.mem_append.mp he with he | he
    · exact h e he
    · rcases List.mem_singleton.mp he with rfl
      rfl

lemma addDocs_key_doc (rrf_k : Nat) :
    ∀ (docs : List Doc) (table : List Entry) (rank : Nat),
      (∀ e ∈ table, e.key = e.doc.pageContent) →
      ∀ e ∈ addDocs rrf_k table rank docs, e.key = e.doc.pageContent := by
  intro docs
  induction docs with
  | nil => intro table rank h; exact h
  | cons d ds ih =>
    intro table rank h
    simp only [addDocs]
    exact ih _ _ (bump_key_doc table d _ h)

lemma lookupScore_nil (c : List Char) : lookupScore [] c = none := rfl

lemma rrfTable_score_both (l1 l2 : List Doc) (r1 r2 : Nat) (d1 d2 : Doc) (c : List Char)
    (hn1 : (l1.map (fun x => x.pageContent)).Nodup)
    (hn2 : (l2.map (fun x => x.pageContent)).Nodup)
    (h1 : l1[r1]? = some d1) (hc1 : d1.pageContent = c)
    (h2 : l2[r2]? = some d2) (hc2 : d2.pageContent = c) :
    lookupScore (rrfTable l1 l2 60) c =
      some (1 / ((61 : ℚ) + r1) + 1 / ((61 : ℚ) + r2)) := by
  unfold rrfTable
  rw [addDocs_lookup_at 60 l2 _ 0 r2 d2 c hn2 h2 hc2]
  rw [addDocs_lookup_at 60 l1 [] 0 r1 d1 c hn1 h1 hc1]
  rw [lookupScore_nil]
  simp only [Option.getD_none, Option.getD_some]
  congr 1
  push_cast
  ring

lemma rrfTable_score_left (l1 l2 : List Doc) (r1 : Nat) (d1 : Doc) (c : List Char)
    (hn1 : (l1.map (fun x => x.pageContent)).Nodup)
    (h1 : l1[r1]? = some d1) (hc1 : d1.pageContent = c)
    (h2 : ∀ x ∈ l2, x.pageContent ≠ c) :
    lookupScore (rrfTable l1 l2 60) c = some (1 / ((61 : ℚ) + r1)) := by
  unfold rrfTable
  rw [addDocs_lookup_not_mem 60 l2 _ 0 c h2]
  rw [addDocs_lookup_at 60 l1 [] 0 r1 d1 c hn1 h1 hc1]
  rw [lookupScore_nil]
  simp only [Option.getD_none]
  congr 1
  push_cast
  ring

lemma rrfTable_score_right (l1 l2 : List Doc) (r2 : Nat) (d2 : Doc) (c : List Char)
    (hn2 : (l2.map (fun x => x.pageContent)).Nodup)
    (h1 : ∀ x ∈ l1, x.pageContent ≠ c)
    (h2 : l2[r2]? = some d2) (hc2 : d2.pageContent = c) :
    lookupScore (rrfTable l1 l2 60) c = some (1 / ((61 : ℚ) + r2)) := by
  unfold rrfTable
  rw [addDocs_lookup_at 60 l2 _ 0 r2 d2 c hn2 h2 hc2]
  rw [addDocs_lookup_not_mem 60 l1 [] 0 c h1]
  rw [lookupScore_nil]
  simp only [Option.getD_none]
  congr 1
  push_cast
  ring

/-- The fused output is the top-k prefix of the stably descending-sorted
score table, its scores are monotonically non-increasing, and its
contents are pairwise distinct. -/
lemma rrf_fusion_shape (l1 l2 : List Doc) (k : Nat) :
    ((rrfTable l1 l2 60).mergeSort (fun a b => decide (b.score ≤ a.score))).Perm
        (rrfTable l1 l2 60) ∧
    (((rrfTable l1 l2 60).mergeSort (fun a b => decide (b.score ≤ a.score))).take k).Pairwise
        (fun a b => b.score ≤ a.score) ∧
    rrf_fusion l1 l2 k =
      (((rrfTable l1 l2 60).mergeSort (fun a b => decide (b.score ≤ a.score))).take k).map
        (fun e => e.doc) ∧
    ((rrf_fusion l1 l2 k).map (fun d => d.pageContent)).Nodup := by
  have hperm := List.mergeSort_perm (rrfTable l1 l2 60)
    (fun a b => decide (b.score ≤ a.score))
  have hsorted : ((rrfTable l1 l2 60).mergeSort
      (fun a b : Entry => decide (b.score ≤ a.score))).Pairwise
      (fun a b : Entry => decide (b.score ≤ a.score) = true) :=
    List.sorted_mergeSort
    (by
      intro a b c hab hbc
      simp only [decide_eq_true_eq] at hab hbc ⊢
      exact le_trans hbc hab)
    (by
      intro a b
      rcases le_total a.score b.score with h | h
      · simp [h]
      · simp [h])
    (rrfTable l1 l2 60)
  refine ⟨hperm, ?_, rfl, ?_⟩
  · have hp2 : (((rrfTable l1 l2 60).mergeSort
        (fun a b => decide (b.score ≤ a.score))).take k).Pairwise
        (fun a b : Entry => decide (b.score ≤ a.score) = true) :=
      List.Pairwise.sublist (List.take_sublist _ _) hsorted
    exact hp2.imp (fun h => by simpa using h)
  · have hkd : ∀ e ∈ rrfTable l1 l2 60, e.key = e.doc.pageContent := by
      unfold rrfTable
      apply addDocs_key_doc
      apply addDocs_key_doc
      intro e he
      simp at he
    have hnd : ((rrfTable l1 l2 60).map (fun e => e.key)).Nodup := by
      unfold rrfTable
      apply addDocs_keys_nodup
      apply addDocs_keys_nodup
      simp
    have hndsorted : (((rrfTable l1 l2 60).mergeSort
        (fun a b => decide (b.score ≤ a.score))).map (fun e => e.key)).Nodup :=
      (hperm.map (fun e => e.key)).nodup_iff.mpr hnd
    have hndtake : ((((rrfTable l1 l2 60).mergeSort
        (fun a b => decide (b.score ≤ a.score))).take k).map (fun e => e.key)).Nodup := by
      rw [List.map_take]
      exact List.Nodup.sublist (List.take_sublist _ _) hndsorted
    unfold rrf_fusion
    rw [List.map_map]
    have hfun : ((fun d : Doc => d.pageContent) ∘ (fun e : Entry => e.doc)) =
        fun e : Entry => e.doc.pageContent := rfl
    rw [hfun]
    have hcong : (((rrfTable l1 l2 60).mergeSort
        (fun a b => decide (b.score ≤ a.score))).take k).map (fun e => e.doc.pageContent) =
        (((rrfTable l1 l2 60).mergeSort
          (fun a b => decide (b.score ≤ a.score))).take k).map (fun e => e.key) := by
      apply List.map_congr_left
      intro e he
      have hmem : e ∈ rrfTable l1 l2 60 :=
        hperm.subset ((List.take_subset _ _) he)
      exact (hkd e hmem).symm
    rw [hcong]
    exact hndtake

/-! ### C3: validation-filter lemmas -/

lemma validated_proj (validate : List Char → VRes) (p : VRes → Bool) :
    ∀ cands : List (List Char),
      ((validate_candidates validate cands).filter (fun q => p q.2)).map (fun q => q.1) =
        cands.filter (fun s => p (validate s)) := by
  intro cands
  induction cands with
  | nil => rfl
  | cons c cs ih =>
    simp only [validate_candidates, List.map_cons, List.filter_cons] at ih ⊢
    by_cases hp : p (validate c)
    · simp only [hp, if_true, List.map_cons]
      rw [← ih]
    · simp only [hp, Bool.false_eq_true, if_false]
      rw [← ih]

lemma filter_valid_tier1 (validate : List Char → VRes) (cands : List (List Char))
    (h : cands.filter (fun s => (validate s).valid && (validate s).hasResults) ≠ []) :
    filter_valid_candidates validate cands true =
      cands.filter (fun s => (validate s).valid && (validate s).hasResults) := by
  simp only [filter_valid_candidates]
  rw [validated_proj validate (fun r => r.valid && r.hasResults),
    validated_proj validate (fun r => r.valid && !r.hasResults)]
  have hne : (cands.filter (fun s => (validate s).valid && (validate s).hasResults)).isEmpty
      = false := by
    cases hv : cands.filter (fun s => (validate s).valid && (validate s).hasResults) with
    | nil => exact absurd hv h
    | cons a b => rfl
  simp [hne]

lemma filter_valid_tier2 (validate : List Char → VRes) (cands : List (List Char))
    (h1 : cands.filter (fun s => (validate s).valid && (validate s).hasResults) = [])
    (h2 : cands.filter (fun s => (validate s).valid && !(validate s).hasResults) ≠ []) :
    filter_valid_candidates validate cands true =
      cands.filter (fun s => (validate s).valid && !(validate s).hasResults) := by
  simp only [filter_valid_candidates]
  rw [validated_proj validate (fun r => r.valid && r.hasResults),
    validated_proj validate (fun r => r.valid && !r.hasResults)]
  have hne : (cands.filter (fun s => (validate s).valid && !(validate s).hasResults)).isEmpty
      = false := by
    cases hv : cands.filter (fun s => (validate s).valid && !(validate s).hasResults) with
    | nil => exact absurd hv h2
    | cons a b => rfl
  simp [h1, hne]

lemma filter_valid_tier3 (validate : List Char → VRes) (cands : List (List Char))
    (h1 : cands.filter (fun s => (validate s).valid && (validate s).hasResults) = [])
    (h2 : cands.filter (fun s => (validate s).valid && !(validate s).hasResults) = []) :
    filter_valid_candidates validate cands true = cands := by
  simp only [filter_valid_candidates]
  rw [validated_proj validate (fun r => r.valid && r.hasResults),
    validated_proj validate (fun r => r.valid && !r.hasResults)]
  simp [h1, h2]

lemma filter_valid_es_cases (validate : List Char → Bool) (cands : List (List Char)) :
    (cands.filter validate ≠ [] → filter_valid_es validate cands = cands.filter validate) ∧
    (cands.filter validate = [] → filter_valid_es validate cands = cands) := by
  constructor
  · intro h
    unfold filter_valid_es
    have hne : (cands.filter validate).isEmpty = false := by
      cases hv : cands.filter validate with
      | nil => exact absurd hv h
      | cons a b => rfl
    simp [hne]
  · intro h
    unfold filter_valid_es
    simp [h]

/-! ### C6: ranking-parse lemmas -/

lemma firstDigitRun_none (s : List Char) (h : ∀ ch ∈ s, ch.isDigit = false) :
    firstDigitRun s = none := by
  induction s with
  | nil => rfl
  | cons c cs ih =>
    unfold firstDigitRun
    rw [if_neg (by simp [h c (List.mem_cons_self c cs)])]
    exact ih (fun ch hch => h ch (List.mem_cons_of_mem c hch))

lemma markerHere_none (s : List Char) (h : ∀ ch ∈ s, ch.isDigit = false) :
    markerHere s = none := by
  unfold markerHere
  by_cases hm : matchesAt true (str "Best_Candidate_Index:") s
  · rw [if_pos hm]
    cases hafter : (s.drop 21).dropWhile pyWS with
    | nil => rfl
    | cons c cs =>
      have hcmem : c ∈ s := by
        have h1 : c ∈ (s.drop 21).dropWhile pyWS := by rw [hafter]; simp
        exact (List.drop_subset 21 s) ((List.dropWhile_sublist pyWS).subset h1)
      dsimp only
      rw [if_neg (by simp [h c hcmem])]
  · rw [if_neg hm]

lemma markerDigitsF_none : ∀ (fuel : Nat) (s : List Char),
    (∀ ch ∈ s, ch.isDigit = false) → markerDigitsF fuel s = none := by
  intro fuel
  induction fuel with
  | zero => intro s _; rfl
  | succ f ih =>
    intro s h
    unfold markerDigitsF
    rw [markerHere_none s h]
    cases s with
    | nil => rfl
    | cons c cs => exact ih cs (fun ch hch => h ch (List.mem_cons_of_mem c hch))

lemma e2Segment_subset (reply : List Char) (i : Nat) :
    ∀ ch ∈ e2Segment reply i, ch ∈ reply := by
  intro ch hch
  unfold e2Segment at hch
  rcases hfj : findSub false (str "Best_Candidate_Index:")
      (reply.drop (i + (str "Best_Candidate_Index:").length)) with _ | j <;>
    rw [hfj] at hch
  · exact (List.drop_subset _ reply) hch
  · exact (List.drop_subset _ reply) ((List.take_subset _ _) hch)

lemma rank_index_e2_no_digits (reply : List Char) (h : ∀ ch ∈ reply, ch.isDigit = false) :
    rank_index_e2 reply = 0 := by
  unfold rank_index_e2
  cases hf : findSub false (str "Best_Candidate_Index:") reply with
  | none =>
    dsimp only
    rw [firstDigitRun_none reply h]
    rfl
  | some i =>
    have hsub : ∀ ch ∈ pyStrip (e2Segment reply i), ch.isDigit = false := by
      intro ch hch
      have hsl : List.Sublist (pyStrip (e2Segment reply i)) (e2Segment reply i) := by
        unfold pyStrip
        exact ((pyRStrip_pref _).sublist).trans (List.dropWhile_sublist pyWS)
      exact h ch (e2Segment_subset reply i ch (hsl.subset hch))
    dsimp only
    rw [firstDigitRun_none _ hsub]
    rfl

lemma rank_index_es_no_digits (reply : List Char) (n : Nat)
    (h : ∀ ch ∈ reply, ch.isDigit = false) :
    rank_index_es reply n = 0 := by
  unfold rank_index_es markerDigits
  rw [markerDigitsF_none _ reply h, firstDigitRun_none reply h]

/-! ### C7: session-environment lemmas -/

lemma env_set_find_same {α : Type} (env : List (List Char × α)) (var : List Char) (v : α) :
    (env_set env var v).find? (fun p => p.1 == var) = some (var, v) := by
  unfold env_set
  by_cases hany : env.any (fun p => p.1 == var)
  · rw [if_pos hany, List.find?_map]
    have hcomp : ((fun p : List Char × α => p.1 == var) ∘
        (fun p => if p.1 == var then (var, v) else p)) =
        fun p : List Char × α => p.1 == var := by
      funext p
      by_cases hk : p.1 = var
      · simp [hk]
      · simp [hk]
    rw [hcomp]
    rcases hf : env.find? (fun p => p.1 == var) with _ | e
    · rcases List.any_eq_true.mp hany with ⟨e, he, hek⟩
      rw [List.find?_eq_none] at hf
      exact absurd hek (hf e he)
    · have hek := List.find?_some hf
      rw [hf]
      show some (if e.1 == var then (var, v) else e) = some (var, v)
      rw [if_pos hek]
  · rw [if_neg hany, List.find?_append]
    have hnone : env.find? (fun p => p.1 == var) = none := by
      rw [List.find?_eq_none]
      intro x hx hpx
      exact hany (List.any_eq_true.mpr ⟨x, hx, hpx⟩)
    rw [hnone]
    simp [List.find?]

lemma find_extract_data_bind_other {α : Type} (store : EnvStore α) (sid var : List Char)
    (v : α) (sid2 : List Char) (hne : sid2 ≠ sid) :
    (extract_data_bind store sid var v).find? (fun p => p.1 == sid2) =
      store.find? (fun p => p.1 == sid2) := by
  unfold extract_data_bind
  by_cases hany : store.any (fun p => p.1 == sid)
  · rw [if_pos hany, List.find?_map]
    have hcomp : ((fun p : List Char × List (List Char × α) => p.1 == sid2) ∘
        (fun p => if p.1 == sid then (sid, env_set p.2 var v) else p)) =
        fun p : List Char × List (List Char × α) => p.1 == sid2 := by
      funext p
      by_cases hk : p.1 = sid
      · simp [hk]
      · simp [hk]
    rw [hcomp]
    rcases hf : store.find? (fun p : List Char × List (List Char × α) => p.1 == sid2) with _ | e
    · rfl
    · have hek := List.find?_some hf
      show some (if e.1 == sid then (sid, env_set e.2 var v) else e) = some e
      have hne2 : (e.1 == sid) = false := by
        have h1 : e.1 = sid2 := beq_iff_eq.mp hek
        simp [h1]
        exact hne
      rw [hne2]
      simp
  · rw [if_neg hany, List.find?_append]
    have hsingle : List.find? (fun p : List Char × List (List Char × α) => p.1 == sid2)
        [(sid, env_set [] var v)] = none := by
      rw [List.find?_eq_none]
      intro x hx hpx
      rcases List.mem_singleton.mp hx with rfl
      exact hne (beq_iff_eq.mp hpx).symm
    rw [hsingle, Option.or_none]

lemma get_exec_environment_bind_other {α : Type} (store : EnvStore α) (sid var : List Char)
    (v : α) (sid2 : List Char) (hne : sid2 ≠ sid) :
    get_exec_environment (extract_data_bind store sid var v) sid2 =
      get_exec_environment store sid2 := by
  unfold get_exec_environment
  rw [find_extract_data_bind_other store sid var v sid2 hne]

lemma lookup_var_bind_other {α : Type} (store : EnvStore α) (sid var : List Char) (v : α)
    (sid2 var2 : List Char) (hne : sid2 ≠ sid) :
    lookup_var (extract_data_bind store sid var v) sid2 var2 = lookup_var store sid2 var2 := by
  unfold lookup_var
  rw [get_exec_environment_bind_other store sid var v sid2 hne]

lemma get_exec_environment_bind_same {α : Type} (store : EnvStore α) (sid var : List Char)
    (v : α) :
    get_exec_environment (extract_data_bind store sid var v) sid =
      env_set (get_exec_environment store sid) var v := by
  unfold extract_data_bind get_exec_environment
  by_cases hany : store.any (fun p => p.1 == sid)
  · rw [if_pos hany, List.find?_map]
    have hcomp : ((fun p : List Char × List (List Char × α) => p.1 == sid) ∘
        (fun p => if p.1 == sid then (sid, env_set p.2 var v) else p)) =
        fun p : List Char × List (List Char × α) => p.1 == sid := by
      funext p
      by_cases hk : p.1 = sid
      · simp [hk]
      · simp [hk]
    rw [hcomp]
    rcases hf : store.find? (fun p : List Char × List (List Char × α) => p.1 == sid) with _ | e
    · rcases List.any_eq_true.mp hany with ⟨e, he, hek⟩
      rw [List.find?_eq_none] at hf
      exact absurd hek (hf e he)
    · have hek := List.find?_some hf
      show (if e.1 == sid then (sid, env_set e.2 var v) else e).2 = env_set e.2 var v
      rw [if_pos hek]
  · rw [if_neg hany, List.find?_append]
    have hnone : store.find? (fun p : List Char × List (List Char × α) => p.1 == sid) =
        none := by
      rw [List.find?_eq_none]
      intro x hx hpx
      exact hany (List.any_eq_true.mpr ⟨x, hx, hpx⟩)
    rw [hnone]
    simp [List.find?]

lemma lookup_var_bind_same {α : Type} (store : EnvStore α) (sid var : List Char) (v : α) :
    lookup_var (extract_data_bind store sid var v) sid var = some v := by
  unfold lookup_var
  rw [get_exec_environment_bind_same, env_set_find_same]
  rfl

/-! ### C10: shape of every extraction result -/

lemma extract_pure_sql_shape (t : List Char) :
    ∃ u, extract_pure_sql t = u ++ [';'] ∧ ';' ∉ u := by
  simp only [extract_pure_sql]
  split
  · exact ⟨str "SELECT 1", by decide, by decide⟩
  · split
    · exact clean_sql_shape _
    · split
      · exact clean_sql_shape _
      · split
        · exact clean_sql_shape _
        · exact clean_sql_shape _

/-! ### C6: last-element selection under the min clamp -/

lemma getD_last (c d : List Char) (rest : List (List Char)) :
    (c :: d :: rest).getD ((c :: d :: rest).length - 1) c =
      (c :: d :: rest).getLast (List.cons_ne_nil c (d :: rest)) := by
  have hlt : (c :: d :: rest).length - 1 < (c :: d :: rest).length := by simp
  rw [List.getD_eq_getElem?_getD, List.getElem?_eq_getElem hlt, Option.getD_some,
    List.getLast_eq_getElem]

/-! ## Claim theorems -/

/-- Claim C2 (amended): a statement that, once stripped, matches the
case-insensitive SELECT prefix test and whose uppercase text does not
contain the substring LIMIT is executed with exactly one injected
LIMIT 50 occurrence (placed before the trailing semicolon when one is
present); every other statement is executed as its stripped text, not
its original text. -/
theorem C2_limit_injection (sql : List Char) :
    (startsSelect (pyStrip sql) = true → hasLimitSub (pyStrip sql) = false →
      (∃! i : Nat, str "LIMIT 50" <+: (ensure_select_limit sql).drop i) ∧
      ((pyStrip sql).getLast? = some ';' →
        ensure_select_limit sql = (pyStrip sql).dropLast ++ str " LIMIT 50;") ∧
      ((pyStrip sql).getLast? ≠ some ';' →
        ensure_select_limit sql = pyStrip sql ++ str " LIMIT 50")) ∧
    (startsSelect (pyStrip sql) = false ∨ hasLimitSub (pyStrip sql) = true →
      ensure_select_limit sql = pyStrip sql) := by
  exact ⟨fun h1 h2 => ensure_select_limit_inject sql h1 h2, ensure_select_limit_skip sql⟩

/-- Witness: a plain un-limited SELECT receives exactly one LIMIT 50,
and a stripped non-SELECT statement passes through as its stripped
text. -/
theorem C2_limit_injection_witness :
    startsSelect (pyStrip (str "SELECT a FROM t")) = true ∧
    hasLimitSub (pyStrip (str "SELECT a FROM t")) = false ∧
    (∃! i : Nat, str "LIMIT 50" <+: (ensure_select_limit (str "SELECT a FROM t")).drop i) ∧
    startsSelect (pyStrip (str " DROP TABLE t ")) = false ∧
    ensure_select_limit (str " DROP TABLE t ") = pyStrip (str " DROP TABLE t ") :=
  ⟨by decide, by decide,
    ((C2_limit_injection (str "SELECT a FROM t")).1 (by decide) (by decide)).1,
    by decide,
    (C2_limit_injection (str " DROP TABLE t ")).2 (Or.inl (by decide))⟩

/-- A non-SELECT statement with whitespace padding is not executed
textually unchanged (it is stripped), and a SELECT lacking any LIMIT
clause but containing LIMIT inside a word receives no injection. -/
theorem C2_counterexample :
    ensure_select_limit (str " DROP TABLE t ") ≠ str " DROP TABLE t " ∧
    startsSelect (str "SELECT delimiter FROM t") = true ∧
    str "LIMIT" ∉ pySplitWS (upperL (str "SELECT delimiter FROM t")) ∧
    ¬ (str "LIMIT 50" <:+: ensure_select_limit (str "SELECT delimiter FROM t")) := by
  decide

/-- Claim C3 (amended): the class-based filter (enhanced2, preferring
rows) returns the candidates that executed with rows when that set is
nonempty, else the candidates that executed without rows, else the
original list, each tier preserving the original order; the inline
filter of generate_sql_enhanced keeps every candidate that executed,
without prioritising row-returning ones, falling back to the original
list only when none executed. -/
theorem C3_validation_filter (validate : List Char → VRes) (validateB : List Char → Bool)
    (cands : List (List Char)) :
    (cands.filter (fun s => (validate s).valid && (validate s).hasResults) ≠ [] →
      filter_valid_candidates validate cands true =
        cands.filter (fun s => (validate s).valid && (validate s).hasResults)) ∧
    (cands.filter (fun s => (validate s).valid && (validate s).hasResults) = [] →
      cands.filter (fun s => (validate s).valid && !(validate s).hasResults) ≠ [] →
      filter_valid_candidates validate cands true =
        cands.filter (fun s => (validate s).valid && !(validate s).hasResults)) ∧
    (cands.filter (fun s => (validate s).valid && (validate s).hasResults) = [] →
      cands.filter (fun s => (validate s).valid && !(validate s).hasResults) = [] →
      filter_valid_candidates validate cands true = cands) ∧
    (cands.filter validateB ≠ [] → filter_valid_es validateB cands = cands.filter validateB) ∧
    (cands.filter validateB = [] → filter_valid_es validateB cands = cands) :=
  ⟨fun h => filter_valid_tier1 validate cands h,
    fun h1 h2 => filter_valid_tier2 validate cands h1 h2,
    fun h1 h2 => filter_valid_tier3 validate cands h1 h2,
    (filter_valid_es_cases validateB cands).1,
    (filter_valid_es_cases validateB cands).2⟩

/-- The candidate pool of the C3 scenario: A and B execute with rows,
C executes without rows, D and E fail. -/
def c3cands : List (List Char) := [str "A", str "B", str "C", str "D", str "E"]

def c3validate : List Char → VRes := fun s =>
  ⟨decide (s = str "A" ∨ s = str "B" ∨ s = str "C"), decide (s = str "A" ∨ s = str "B")⟩

/-- Witness: on the five-candidate scenario the class-based filter
returns the row-returning tier, and the inline filter returns the
executing candidates. -/
theorem C3_validation_filter_witness :
    c3cands.filter (fun s => (c3validate s).valid && (c3validate s).hasResults) ≠ [] ∧
    filter_valid_candidates c3validate c3cands true =
      c3cands.filter (fun s => (c3validate s).valid && (c3validate s).hasResults) ∧
    c3cands.filter (fun s => (c3validate s).valid) ≠ [] ∧
    filter_valid_es (fun s => (c3validate s).valid) c3cands =
      c3cands.filter (fun s => (c3validate s).valid) :=
  ⟨by decide,
    (C3_validation_filter c3validate (fun s => (c3validate s).valid) c3cands).1 (by decide),
    by decide,
    (C3_validation_filter c3validate (fun s => (c3validate s).valid) c3cands).2.2.2.1
      (by decide)⟩

/-- On the claimed scenario (valid-with-rows A B, valid-empty C,
invalid D E) the inline filter of generate_sql_enhanced returns three
candidates, not exactly the two valid-with-rows ones. -/
theorem C3_counterexample :
    c3cands.filter (fun s => (c3validate s).valid && (c3validate s).hasResults) =
      [str "A", str "B"] ∧
    filter_valid_es (fun s => (c3validate s).valid) c3cands = [str "A", str "B", str "C"] ∧
    [str "A", str "B", str "C"] ≠ [str "A", str "B"] := by
  decide

/-- Claim C6 (amended): a single candidate short-circuits ranking in
both pipelines; an unparseable (digit-free) reply selects index 0; in
rank_candidates (enhanced2) an out-of-range parsed index falls back to
the first candidate, while in generate_sql_enhanced an out-of-range
marker index is clamped with min to the last candidate; and the parsed
integer is the first one after the marker when the marker occurs, not
the first integer of the reply. -/
theorem C6_rank_parsing (c d : List Char) (rest : List (List Char)) (reply : List Char) :
    rank_candidates [c] reply = c ∧
    choose_ranked_es [c] reply = c ∧
    ((∀ ch ∈ reply, ch.isDigit = false) →
      rank_candidates (c :: d :: rest) reply = c ∧
      choose_ranked_es (c :: d :: rest) reply = c) ∧
    ((c :: d :: rest).length ≤ rank_index_e2 reply →
      rank_candidates (c :: d :: rest) reply = c) ∧
    (∀ v, markerDigits reply = some v → (c :: d :: rest).length ≤ v + 1 →
      choose_ranked_es (c :: d :: rest) reply =
        (c :: d :: rest).getLast (List.cons_ne_nil c (d :: rest))) := by
  refine ⟨rfl, rfl, ?_, ?_, ?_⟩
  · intro h
    constructor
    · show (if rank_index_e2 reply < (c :: d :: rest).length then
          (c :: d :: rest).getD (rank_index_e2 reply) c else c) = c
      rw [rank_index_e2_no_digits reply h, if_pos (by simp)]
      rfl
    · show (c :: d :: rest).getD (rank_index_es reply (c :: d :: rest).length) c = c
      rw [rank_index_es_no_digits reply _ h]
      rfl
  · intro hge
    show (if rank_index_e2 reply < (c :: d :: rest).length then
        (c :: d :: rest).getD (rank_index_e2 reply) c else c) = c
    rw [if_neg (by omega)]
  · intro v hv hle
    have hidx : rank_index_es reply (c :: d :: rest).length = (c :: d :: rest).length - 1 := by
      unfold rank_index_es
      rw [hv]
      show min v ((c :: d :: rest).length - 1) = (c :: d :: rest).length - 1
      omega
    show (c :: d :: rest).getD (rank_index_es reply (c :: d :: rest).length) c =
      (c :: d :: rest).getLast (List.cons_ne_nil c (d :: rest))
    rw [hidx]
    exact getD_last c d rest

/-- Witness: a digit-free reply selects the first of two candidates,
and a marker index of 9 over two candidates is clamped to the last
one. -/
theorem C6_rank_parsing_witness :
    (∀ ch ∈ str "no index here", ch.isDigit = false) ∧
    (rank_candidates [str "A", str "B"] (str "no index here") = str "A" ∧
      choose_ranked_es [str "A", str "B"] (str "no index here") = str "A") ∧
    markerDigits (str "Best_Candidate_Index: 9") = some 9 ∧
    ([str "A", str "B"] : List (List Char)).length ≤ 9 + 1 ∧
    choose_ranked_es [str "A", str "B"] (str "Best_Candidate_Index: 9") =
      ([str "A", str "B"] : List (List Char)).getLast (List.cons_ne_nil _ _) :=
  ⟨by decide,
    (C6_rank_parsing (str "A") (str "B") [] (str "no index here")).2.2.1 (by decide),
    by decide, by decide,
    (C6_rank_parsing (str "A") (str "B") [] (str "Best_Candidate_Index: 9")).2.2.2.2 9
      (by decide) (by decide)⟩

/-- An out-of-range marker index selects the last candidate in
generate_sql_enhanced rather than falling back to the first, and with
a marker present the parsed value is not the first integer of the
reply. -/
theorem C6_counterexample :
    choose_ranked_es [str "A", str "B"] (str "Best_Candidate_Index: 5") = str "B" ∧
    str "B" ≠ str "A" ∧
    rank_index_e2 (str "0 and Best_Candidate_Index: 1") = 1 ∧
    firstDigitRun (str "0 and Best_Candidate_Index: 1") = some 0 := by
  decide

/-- Claim C8 (amended): clean_sql is invariant under all-whitespace
padding around a nonempty statement and under one trailing semicolon
added to a stripped semicolon-free statement, so such variants collapse
to one candidate; every output contains exactly one semicolon, at its
end.  Interior whitespace differences (such as a space before the
semicolon) are not collapsed. -/
theorem C8_normalization (sql w1 w2 s : List Char)
    (hw1 : ∀ c ∈ w1, pyWS c) (hw2 : ∀ c ∈ w2, pyWS c)
    (hs : s ≠ []) (hstrip : pyStrip s = s) (hsemi : ';' ∉ s) :
    clean_sql (w1 ++ s ++ w2) = clean_sql s ∧
    clean_sql (s ++ [';']) = clean_sql s ∧
    (clean_sql sql).count ';' = 1 ∧
    (clean_sql sql).getLast? = some ';' :=
  ⟨clean_sql_ws_wrap hw1 hw2 s hs, clean_sql_append_semi s hs hstrip hsemi,
    clean_sql_count_semi sql, clean_sql_getLast sql⟩

/-- Witness: whitespace padding and a trailing semicolon around
SELECT 1 collapse to the same normal form. -/
theorem C8_normalization_witness :
    (∀ c ∈ str " ", pyWS c) ∧ (∀ c ∈ str "  ", pyWS c) ∧
    str "SELECT 1" ≠ [] ∧ pyStrip (str "SELECT 1") = str "SELECT 1" ∧
    ';' ∉ str "SELECT 1" ∧
    (clean_sql (str " " ++ str "SELECT 1" ++ str "  ") = clean_sql (str "SELECT 1") ∧
      clean_sql (str "SELECT 1" ++ [';']) = clean_sql (str "SELECT 1") ∧
      (clean_sql (str "x")).count ';' = 1 ∧
      (clean_sql (str "x")).getLast? = some ';') :=
  ⟨by decide, by decide, by decide, by decide, by decide,
    C8_normalization (str "x") (str " ") (str "  ") (str "SELECT 1")
      (by decide) (by decide) (by decide) (by decide) (by decide)⟩

/-- Two statements that differ only by whitespace (same non-whitespace
characters) need not normalise identically: a space before the
semicolon survives clean_sql. -/
theorem C8_counterexample :
    (str "SELECT 1;").filter (fun c => !pyWS c) =
      (str "SELECT 1 ;").filter (fun c => !pyWS c) ∧
    clean_sql (str "SELECT 1;") ≠ clean_sql (str "SELECT 1 ;") := by
  decide

/-- Claim C10: every extraction result is a nonempty single statement
ending in its unique semicolon, with the literal SELECT 1; fallback on
empty input. -/
theorem C10_extraction_never_empty (t : List Char) :
    extract_pure_sql t ≠ [] ∧ (extract_pure_sql t).count ';' = 1 ∧
    (extract_pure_sql t).getLast? = some ';' ∧ extract_pure_sql [] = str "SELECT 1;" := by
  obtain ⟨u, hu, hnu⟩ := extract_pure_sql_shape t
  refine ⟨?_, ?_, ?_, by decide⟩
  · rw [hu]
    simp
  · rw [hu, List.count_append, List.count_eq_zero_of_not_mem hnu]
    rfl
  · rw [hu, List.getLast?_append]
    rfl

/-- Claim C4: a chunk at zero-based rank r1 in the semantic list and r2
in the lexical list scores 1/(61+r1) + 1/(61+r2), one term per list and
a single term when it appears in only one list, keyed by content; the
fused output is the top k of the stably descending-sorted table, its
scores are monotonically non-increasing, and its contents are
deduplicated. -/
theorem C4_rrf_scores (l1 l2 : List Doc) (k r1 r2 : Nat) (d1 d2 : Doc) (c : List Char)
    (hn1 : (l1.map (fun x => x.pageContent)).Nodup)
    (hn2 : (l2.map (fun x => x.pageContent)).Nodup) :
    (l1[r1]? = some d1 → d1.pageContent = c → l2[r2]? = some d2 → d2.pageContent = c →
      lookupScore (rrfTable l1 l2 60) c =
        some (1 / ((61 : ℚ) + r1) + 1 / ((61 : ℚ) + r2))) ∧
    (l1[r1]? = some d1 → d1.pageContent = c → (∀ x ∈ l2, x.pageContent ≠ c) →
      lookupScore (rrfTable l1 l2 60) c = some (1 / ((61 : ℚ) + r1))) ∧
    ((∀ x ∈ l1, x.pageContent ≠ c) → l2[r2]? = some d2 → d2.pageContent = c →
      lookupScore (rrfTable l1 l2 60) c = some (1 / ((61 : ℚ) + r2))) ∧
    rrf_fusion l1 l2 k =
      (((rrfTable l1 l2 60).mergeSort (fun a b => decide (b.score ≤ a.score))).take k).map
        (fun e => e.doc) ∧
    (((rrfTable l1 l2 60).mergeSort (fun a b => decide (b.score ≤ a.score))).take k).Pairwise
      (fun a b => b.score ≤ a.score) ∧
    ((rrf_fusion l1 l2 k).map (fun d => d.pageContent)).Nodup := by
  obtain ⟨hperm, hpw, hshape, hnd⟩ := rrf_fusion_shape l1 l2 k
  exact ⟨fun h1 hc1 h2 hc2 => rrfTable_score_both l1 l2 r1 r2 d1 d2 c hn1 hn2 h1 hc1 h2 hc2,
    fun h1 hc1 h2 => rrfTable_score_left l1 l2 r1 d1 c hn1 h1 hc1 h2,
    fun h1 h2 hc2 => rrfTable_score_right l1 l2 r2 d2 c hn2 h1 h2 hc2,
    hshape, hpw, hnd⟩

/-- Witness: the chunk y sits at rank 1 of the first list and rank 0 of
the second and scores 1/62 + 1/61. -/
theorem C4_rrf_scores_witness :
    (([⟨str "x", 0⟩, ⟨str "y", 1⟩] : List Doc).map (fun x => x.pageContent)).Nodup ∧
    (([⟨str "y", 2⟩, ⟨str "z", 3⟩] : List Doc).map (fun x => x.pageContent)).Nodup ∧
    ([⟨str "x", 0⟩, ⟨str "y", 1⟩] : List Doc)[1]? = some ⟨str "y", 1⟩ ∧
    ([⟨str "y", 2⟩, ⟨str "z", 3⟩] : List Doc)[0]? = some ⟨str "y", 2⟩ ∧
    lookupScore (rrfTable [⟨str "x", 0⟩, ⟨str "y", 1⟩] [⟨str "y", 2⟩, ⟨str "z", 3⟩] 60)
        (str "y") =
      some (1 / ((61 : ℚ) + (1 : Nat)) + 1 / ((61 : ℚ) + (0 : Nat))) :=
  ⟨by decide, by decide, by decide, by decide,
    (C4_rrf_scores [⟨str "x", 0⟩, ⟨str "y", 1⟩] [⟨str "y", 2⟩, ⟨str "z", 3⟩] 2 1 0
        ⟨str "y", 1⟩ ⟨str "y", 2⟩ (str "y") (by decide) (by decide)).1
      (by decide) rfl (by decide) rfl⟩

/-- Claim C9 (amended): with the vector index absent, hybrid_search
returns the empty list even when the BM25 index is available; with the
vector index present and the BM25 index absent it degrades to fusing
the vector list with an empty list, where each vector chunk scores its
single-list contribution. -/
theorem C9_index_degradation (bm : Option (List Doc)) (vs : List Doc) (k r : Nat)
    (d : Doc) (c : List Char)
    (hn : (vs.map (fun x => x.pageContent)).Nodup)
    (hr : vs[r]? = some d) (hc : d.pageContent = c) :
    hybrid_search none bm k = [] ∧
    hybrid_search (some vs) none k = rrf_fusion vs [] k ∧
    lookupScore (rrfTable vs [] 60) c = some (1 / ((61 : ℚ) + r)) := by
  refine ⟨rfl, rfl, ?_⟩
  exact rrfTable_score_left vs [] r d c hn hr hc (fun x hx => absurd hx (List.not_mem_nil x))

/-- Witness: a single vector chunk with no BM25 index keeps its 1/61
score. -/
theorem C9_index_degradation_witness :
    (([⟨str "a", 0⟩] : List Doc).map (fun x => x.pageContent)).Nodup ∧
    ([⟨str "a", 0⟩] : List Doc)[0]? = some ⟨str "a", 0⟩ ∧
    (hybrid_search none (some [⟨str "a", 0⟩]) 1 = [] ∧
      hybrid_search (some [⟨str "a", 0⟩]) none 1 = rrf_fusion [⟨str "a", 0⟩] [] 1 ∧
      lookupScore (rrfTable [⟨str "a", 0⟩] [] 60) (str "a") =
        some (1 / ((61 : ℚ) + (0 : Nat)))) :=
  ⟨by decide, by decide,
    C9_index_degradation (some [⟨str "a", 0⟩]) [⟨str "a", 0⟩] 1 0 ⟨str "a", 0⟩ (str "a")
      (by decide) (by decide) rfl⟩

/-- With the vector index absent but the BM25 index present and
nonempty, hybrid_search returns nothing instead of the lexical
results. -/
theorem C9_counterexample :
    hybrid_search none (some [⟨str "doc", 0⟩]) 5 = [] ∧
    ([⟨str "doc", 0⟩] : List Doc) ≠ [] := by
  decide

/-- Claim C7 (amended): a binding made under one data source's session
identifier is invisible to any data source whose session identifier
differs, and is readable under its own identifier; but the identifier
is the db_path with all remote sources collapsed onto the constant
remote_db key, so two distinct remote sources share one environment. -/
theorem C7_session_noninterference {α : Type} (store : EnvStore α) (ds1 ds2 : DataSource)
    (var var2 : List Char) (v : α)
    (hsid : session_id_of ds1 ≠ session_id_of ds2) :
    lookup_var (extract_data_bind store (session_id_of ds1) var v)
        (session_id_of ds2) var2 =
      lookup_var store (session_id_of ds2) var2 ∧
    lookup_var (extract_data_bind store (session_id_of ds1) var v)
        (session_id_of ds1) var = some v :=
  ⟨lookup_var_bind_other store (session_id_of ds1) var v (session_id_of ds2) var2
      (Ne.symm hsid),
    lookup_var_bind_same store (session_id_of ds1) var v⟩

/-- Witness: two different uploaded databases have different session
keys, and a binding under the first is invisible to the second. -/
theorem C7_session_noninterference_witness :
    session_id_of ⟨some (str "a.db"), none⟩ ≠ session_id_of ⟨some (str "b.db"), none⟩ ∧
    (lookup_var (extract_data_bind ([] : EnvStore Nat)
          (session_id_of ⟨some (str "a.db"), none⟩) (str "df") 3)
        (session_id_of ⟨some (str "b.db"), none⟩) (str "df") =
      lookup_var ([] : EnvStore Nat) (session_id_of ⟨some (str "b.db"), none⟩) (str "df") ∧
    lookup_var (extract_data_bind ([] : EnvStore Nat)
          (session_id_of ⟨some (str "a.db"), none⟩) (str "df") 3)
        (session_id_of ⟨some (str "a.db"), none⟩) (str "df") = some 3) :=
  ⟨by decide,
    C7_session_noninterference ([] : EnvStore Nat) ⟨some (str "a.db"), none⟩
      ⟨some (str "b.db"), none⟩ (str "df") (str "df") 3 (by decide)⟩

/-- Two distinct remote data sources map to the same remote_db session
key, so a variable bound during a conversation over the first source is
visible to a conversation over the second. -/
theorem C7_counterexample :
    (⟨none, some (str "postgres://a")⟩ : DataSource) ≠ ⟨none, some (str "postgres://b")⟩ ∧
    session_id_of ⟨none, some (str "postgres://a")⟩ =
      session_id_of ⟨none, some (str "postgres://b")⟩ ∧
    lookup_var (extract_data_bind ([] : EnvStore Nat)
        (session_id_of ⟨none, some (str "postgres://a")⟩) (str "df") 7)
      (session_id_of ⟨none, some (str "postgres://b")⟩) (str "df") = some 7 := by
  decide

/-- Claim C1: with auto-execution disabled, a model turn requesting the
query-execution or data-extraction tool makes the stream emit its text,
one pending-approval tool_call and done, then suspend after a single
provider call with no tool_result event; the resume entry point
executes the approved SQL exactly once and prepends exactly one
successful tool_result before the restarted stream. -/
theorem C1_pending_approval_resume (cfg : LoopConfig) (provider : Nat → ProviderResult)
    (parse : List Char → Option (List (List Char × List Char)))
    (expertSql : Option (List Char))
    (exec : List Char → List (List Char × List Char) → Except (List Char) (List Char))
    (chunks : List (List Char)) (tcs : List (Option ToolCallRec))
    (tc : ToolCallRec) (rest : List ToolCallRec)
    (execSql : List Char → Except (List Char) (List Char))
    (approvedSql r : List Char) (resumeEvents : List Event)
    (hauto : cfg.allowAutoExecute = false)
    (hrounds : 1 ≤ cfg.maxToolRounds)
    (hp : provider 0 = ProviderResult.success chunks tcs)
    (hvalid : validToolCalls tcs = tc :: rest)
    (hname : tc.name = str "sql_inter" ∨ tc.name = str "extract_data")
    (hexec : execSql approvedSql = Except.ok r) :
    (∃ sc, agent_analyze_database_stream cfg provider parse expertSql exec =
        (chunks.map Event.text ++
          [Event.toolCall tc.name ToolStatus.pendingApproval sc, Event.done], 1)) ∧
    (∀ e ∈ (agent_analyze_database_stream cfg provider parse expertSql exec).1,
      isToolResultEv e = false) ∧
    confirm_and_resume_stream execSql approvedSql resumeEvents =
      (Event.toolResult (str "sql_inter") r true :: resumeEvents, 1) := by
  obtain ⟨sc, heq⟩ := agent_pending_suspends cfg provider parse expertSql exec chunks tcs
    tc rest hauto hrounds hp hvalid hname
  refine ⟨⟨sc, heq⟩, ?_, ?_⟩
  · rw [heq]
    exact agent_pending_no_toolResult chunks tc.name sc
  · simp only [confirm_and_resume_stream, hexec]

/-- The pending-approval scenario at concrete inputs: one round
budgeted, one sql_inter request, approval off. -/
def c1cfg : LoopConfig := ⟨false, false, none, 1⟩

def c1tc : ToolCallRec := ⟨str "1", str "sql_inter", str ""⟩

def c1provider : Nat → ProviderResult :=
  fun _ => ProviderResult.success [str "hi"] [some c1tc]

/-- Witness: the concrete gated stream suspends after one provider call
and the resume entry point emits its single successful tool_result. -/
theorem C1_pending_approval_resume_witness :
    c1cfg.allowAutoExecute = false ∧ 1 ≤ c1cfg.maxToolRounds ∧
    validToolCalls [some c1tc] = [c1tc] ∧
    ((∃ sc, agent_analyze_database_stream c1cfg c1provider (fun _ => none) none
          (fun _ _ => Except.ok []) =
        ([str "hi"].map Event.text ++
          [Event.toolCall c1tc.name ToolStatus.pendingApproval sc, Event.done], 1)) ∧
      (∀ e ∈ (agent_analyze_database_stream c1cfg c1provider (fun _ => none) none
          (fun _ _ => Except.ok [])).1, isToolResultEv e = false) ∧
      confirm_and_resume_stream (fun _ => Except.ok (str "done")) (str "SELECT 1") [] =
        (Event.toolResult (str "sql_inter") (str "done") true :: [], 1)) :=
  ⟨rfl, by decide, by decide,
    C1_pending_approval_resume c1cfg c1provider (fun _ => none) none
      (fun _ _ => Except.ok []) [str "hi"] [some c1tc] c1tc []
      (fun _ => Except.ok (str "done")) (str "SELECT 1") (str "done") []
      rfl (by decide) rfl (by decide) (Or.inl rfl) rfl⟩

/-- Claim C5: when every completed turn requests a valid tool call and
auto-execution is on, the loop makes exactly max_tool_rounds provider
calls and ends in the single max-rounds error followed by done, with no
earlier error or done event. -/
theorem C5_max_rounds (cfg : LoopConfig) (provider : Nat → ProviderResult)
    (parse : List Char → Option (List (List Char × List Char)))
    (expertSql : Option (List Char))
    (exec : List Char → List (List Char × List Char) → Except (List Char) (List Char))
    (hauto : cfg.allowAutoExecute = true)
    (hp : ∀ i, ∃ cs tcs, provider i = ProviderResult.success cs tcs ∧
      validToolCalls tcs ≠ []) :
    (agent_analyze_database_stream cfg provider parse expertSql exec).2 =
      cfg.maxToolRounds ∧
    ∃ pre, (agent_analyze_database_stream cfg provider parse expertSql exec).1 =
        pre ++ [Event.error (str "Max tool rounds reached."), Event.done] ∧
      ∀ e ∈ pre, isErrorEv e = false ∧ e ≠ Event.done := by
  obtain ⟨hc, pre, hev, hclean⟩ := agentRounds_max cfg provider parse expertSql exec hauto hp
    cfg.maxToolRounds 0
  constructor
  · show (agentRounds cfg provider parse expertSql exec cfg.maxToolRounds 0).2 =
      cfg.maxToolRounds
    rw [hc]
    omega
  · exact ⟨pre, hev, hclean⟩

/-- The always-tool-calling scenario at concrete inputs: three rounds
budgeted, auto-execution on, every turn requesting python_inter. -/
def c5cfg : LoopConfig := ⟨true, false, none, 3⟩

def c5tc : ToolCallRec := ⟨str "1", str "python_inter", str "x"⟩

def c5provider : Nat → ProviderResult := fun _ => ProviderResult.success [] [some c5tc]

/-- Witness: the concrete three-round loop makes three provider calls
and terminates in the max-rounds error and done. -/
theorem C5_max_rounds_witness :
    c5cfg.allowAutoExecute = true ∧
    ((agent_analyze_database_stream c5cfg c5provider (fun _ => none) none
        (fun _ _ => Except.ok (str "ok"))).2 = c5cfg.maxToolRounds ∧
      ∃ pre, (agent_analyze_database_stream c5cfg c5provider (fun _ => none) none
          (fun _ _ => Except.ok (str "ok"))).1 =
          pre ++ [Event.error (str "Max tool rounds reached."), Event.done] ∧
        ∀ e ∈ pre, isErrorEv e = false ∧ e ≠ Event.done) :=
  ⟨rfl,
    C5_max_rounds c5cfg c5provider (fun _ => none) none (fun _ _ => Except.ok (str "ok"))
      rfl (fun i => ⟨[], [some c5tc], rfl, by decide⟩)⟩
